import Mathlib

/-!
Shallow embedding of `exif_analyzer.py` (EXIF metadata parser, lens-name
canonicalizer and statistics aggregator).

Modelling conventions:
* Python strings are Lean `String`s; all character-level primitives
  (`str.strip`, `str.lower`, the regexes used by the script) are modelled
  over ASCII, which is the alphabet the script's key/value vocabulary and
  numeric patterns live in.
* Python `None` is `Option.none`; a dictionary field holding a value `v` is
  `some v`.  The script tests fields with Python truthiness (`if not
  data[...]`), under which both `None` and `""` (resp. `0` for the ISO
  integer) count as unset; `strTruthy` / `intTruthy` model those guards.
* Python `float` values are modelled by `PyVal`: a finite value carries
  its exact rational (`Rat`) — the script only produces floats from
  decimal literals and divisions of such, which stay exactly
  representable — while `float('inf')`, `float('-inf')` and
  `float('nan')` are the constructors `inf false`, `inf true` and `nan`.
  The focal-length branch feeds `float(...)` only tokens of digits and
  dots, for which a plain `Rat` suffices; the `"%.1f"` rounding is
  modelled as round half to even on the exact rational.
* Fallible code (the `float(...)` call that can raise `ValueError`) is
  modelled with `Except`.
-/

deriving instance DecidableEq for Except

namespace ExifAnalyzer

/-! ### Character primitives -/

/-- Python whitespace for `str.strip` and the regex class `\s`
(space, tab, newline, carriage return, vertical tab, form feed). -/
def isPySpace (c : Char) : Bool :=
  c = ' ' || c = '\t' || c = '\n' || c = '\r' || c.toNat = 11 || c.toNat = 12

/-- Python `str.lower` on one character (ASCII). -/
def pyLower (c : Char) : Char :=
  if 65 ≤ c.toNat ∧ c.toNat ≤ 90 then Char.ofNat (c.toNat + 32) else c

/-- The regex class `\d`. -/
def isDigitChar (c : Char) : Bool :=
  '0' ≤ c && c ≤ '9'

/-- The regex class `[\d.]`. -/
def isNumChar (c : Char) : Bool :=
  isDigitChar c || c = '.'

/-- The characters accepted by `mm` under `re.IGNORECASE`. -/
def isMChar (c : Char) : Bool :=
  c = 'm' || c = 'M'

/-- Python `str.strip()` on a character list. -/
def pyStripList (l : List Char) : List Char :=
  ((l.dropWhile isPySpace).reverse.dropWhile isPySpace).reverse

/-- Python `str.strip()`. -/
def pyStrip (s : String) : String :=
  ⟨pyStripList s.data⟩

/-- Collapse every run of two or more adjacent spaces to a single space. -/
def squeezeSpaces : List Char → List Char
  | [] => []
  | [c] => [c]
  | a :: b :: rest =>
    if a = ' ' && b = ' ' then squeezeSpaces (b :: rest)
    else a :: squeezeSpaces (b :: rest)

/-- `re.sub(r'\s+', ' ', ·)`: each maximal run of whitespace becomes one
space.  Mapping every whitespace character to a space and then squeezing
adjacent spaces is equivalent. -/
def collapseWSList (l : List Char) : List Char :=
  squeezeSpaces (l.map fun c => if isPySpace c then ' ' else c)

/-- `normalize_lens_name` from the source: empty (falsy) input returns
`""`; otherwise lower-case, collapse whitespace runs, strip. -/
def normalize_lens_name (s : String) : String :=
  if s = "" then ""
  else ⟨pyStripList (collapseWSList (s.data.map pyLower))⟩

/-! ### Regex searches used by the parser -/

/-- `re.search(r'(\d+)', ·)`: the first maximal run of digits, anywhere in
the value. -/
def firstDigitRunAux : List Char → Option (List Char)
  | [] => none
  | c :: rest =>
    if isDigitChar c then some (c :: rest.takeWhile isDigitChar)
    else firstDigitRunAux rest

/-- `re.search(r'([\d.]+)', ·)`: the first maximal run of digits and
dots. -/
def firstNumRunAux : List Char → Option (List Char)
  | [] => none
  | c :: rest =>
    if isNumChar c then some (c :: rest.takeWhile isNumChar)
    else firstNumRunAux rest

/-- `re.search(r'([\d.]+)\s*mm', ·, re.IGNORECASE)`.  The classes `[\d.]`,
`\s` and `m`/`M` are pairwise disjoint, so the regex engine needs no
backtracking: at each candidate start the engine takes the maximal
`[\d.]` run, skips the maximal whitespace run, and requires `mm`.
Restarting one character later inside a failed run fails identically, so
scanning character by character is equivalent to the leftmost-match
rule. -/
def focalSearchAux : List Char → Option (List Char)
  | [] => none
  | c :: rest =>
    if isNumChar c then
      match (rest.dropWhile isNumChar).dropWhile isPySpace with
      | a :: b :: _ =>
        if isMChar a && isMChar b then some (c :: rest.takeWhile isNumChar)
        else focalSearchAux rest
      | _ => focalSearchAux rest
    else focalSearchAux rest

/-- Python `int` on a run of ASCII digits. -/
def digitsToNat (l : List Char) : Nat :=
  l.foldl (fun n c => 10 * n + (c.toNat - 48)) 0

/-- Python `float` on a token matched by `[\d.]+` (digits and dots only):
it succeeds iff the token contains at most one dot and at least one
digit.  The value is the exact rational the decimal literal denotes. -/
def numRunToRat (l : List Char) : Option Rat :=
  if l.count '.' = 0 then
    if l = [] then none else some (digitsToNat l : Rat)
  else if l.count '.' = 1 then
    let ip := l.takeWhile (· ≠ '.')
    let fp := (l.dropWhile (· ≠ '.')).tail
    if ip = [] ∧ fp = [] then none
    else some ((digitsToNat ip : Rat) + (digitsToNat fp : Rat) / (10 : Rat) ^ fp.length)
  else none

/-- A Python float value: a finite value (exactly representable — the
program only produces floats from decimal literals and divisions), a
signed infinity, or NaN. -/
inductive PyVal where
  | fin (q : Rat)
  | inf (neg : Bool)
  | nan
deriving Repr, DecidableEq

/-- A character of a digit group: a digit or a PEP 515 underscore. -/
def isGroupChar (c : Char) : Bool :=
  isDigitChar c || c = '_'

/-- After an initial digit: a sequence of digits in which each
underscore stands between two digits. -/
def groupOkAux : List Char → Bool
  | [] => true
  | '_' :: c :: rest => isDigitChar c && groupOkAux rest
  | ['_'] => false
  | c :: rest => isDigitChar c && groupOkAux rest

/-- A valid digit group of a Python float literal: nonempty, starts and
ends with a digit, underscores only between digits (`1_0` is valid,
`_1`, `1_`, `1__0` are not). -/
def digitGroupOk : List Char → Bool
  | [] => false
  | c :: rest => isDigitChar c && groupOkAux rest

/-- The digits of a group, underscores removed. -/
def stripUnderscores (l : List Char) : List Char :=
  l.filter fun c => c ≠ '_'

/-- The shape of a finite decimal Python float literal after the sign:
integer digits, fraction digits, optional exponent (sign and digits),
each group possibly containing PEP 515 underscores. -/
structure FloatLit where
  ip : List Char
  fp : List Char
  hasExp : Bool
  eneg : Bool
  ed : List Char
deriving Repr, DecidableEq

/-- Parse the exponent suffix: optional sign, then a valid digit
group. -/
def parseExp (l : List Char) : Option (Bool × List Char) :=
  let sgn : Bool × List Char :=
    match l with
    | '+' :: r => (false, r)
    | '-' :: r => (true, r)
    | r => (false, r)
  if digitGroupOk sgn.2 then some sgn else none

/-- Recognize a finite decimal Python float literal (the part after the
sign): `digits`, `digits.digits`, `.digits` or `digits.`, optionally
followed by `e`/`E` and an exponent, each digit group subject to the
underscore placement rule. -/
def pyDecimalShape (l : List Char) : Option FloatLit :=
  let ip := l.takeWhile isGroupChar
  match l.dropWhile isGroupChar with
  | [] => if digitGroupOk ip then some ⟨ip, [], false, false, []⟩ else none
  | '.' :: r2 =>
    let fp := r2.takeWhile isGroupChar
    if (ip = [] ∨ digitGroupOk ip) ∧ (fp = [] ∨ digitGroupOk fp) ∧ ¬(ip = [] ∧ fp = []) then
      match r2.dropWhile isGroupChar with
      | [] => some ⟨ip, fp, false, false, []⟩
      | e :: r4 =>
        if e = 'e' ∨ e = 'E' then
          (parseExp r4).map fun ex => ⟨ip, fp, true, ex.1, ex.2⟩
        else none
    else none
  | e :: r4 =>
    if (e = 'e' ∨ e = 'E') ∧ digitGroupOk ip then
      (parseExp r4).map fun ex => ⟨ip, [], true, ex.1, ex.2⟩
    else none

/-- The exact rational value a finite float literal denotes. -/
def floatLitVal (t : FloatLit) : Rat :=
  ((digitsToNat (stripUnderscores t.ip) : Rat)
      + (digitsToNat (stripUnderscores t.fp) : Rat)
          / (10 : Rat) ^ (stripUnderscores t.fp).length)
    * (if t.hasExp then
        (if t.eneg then ((10 : Rat) ^ digitsToNat (stripUnderscores t.ed))⁻¹
        else (10 : Rat) ^ digitsToNat (stripUnderscores t.ed))
      else 1)

/-- The shape a string parsed by `float(...)` takes: a signed finite
decimal literal, a signed `inf`/`infinity`, or `nan`. -/
inductive PyShape where
  | lit (neg : Bool) (t : FloatLit)
  | inf (neg : Bool)
  | nan
deriving Repr, DecidableEq

/-- Recognize any string `float(...)` accepts: surrounding whitespace is
stripped, an optional sign is read, then the case-insensitive special
names `inf`, `infinity` and `nan`, or a finite decimal literal
(underscores per PEP 515).  Only the ASCII digits of the global ASCII
convention are modelled. -/
def pyFloatShape (s : String) : Option PyShape :=
  let l := pyStripList s.data
  let sgn : Bool × List Char :=
    match l with
    | '+' :: r => (false, r)
    | '-' :: r => (true, r)
    | r => (false, r)
  let low := sgn.2.map pyLower
  if low = ['i', 'n', 'f'] ∨ low = ['i', 'n', 'f', 'i', 'n', 'i', 't', 'y'] then
    some (.inf sgn.1)
  else if low = ['n', 'a', 'n'] then some .nan
  else (pyDecimalShape sgn.2).map fun t => .lit sgn.1 t

/-- The value a recognized float string denotes (`float('-nan')` is the
same NaN as `float('nan')`). -/
def shapeVal : PyShape → PyVal
  | .lit neg t => .fin ((if neg then (-1 : Rat) else 1) * floatLitVal t)
  | .inf n => .inf n
  | .nan => .nan

/-- Python `float(...)` on an arbitrary string. -/
def pyFloat (s : String) : Option PyVal :=
  (pyFloatShape s).map shapeVal

/-! ### Number formatting -/

/-- Round half to even, the rounding Python applies when formatting. -/
def roundHalfEven (q : Rat) : Int :=
  if q - Rat.floor q < 1 / 2 then Rat.floor q
  else if q - Rat.floor q > 1 / 2 then Rat.floor q + 1
  else if Rat.floor q % 2 = 0 then Rat.floor q else Rat.floor q + 1

/-- Python `f"{x:.1f}"` for the nonnegative values the parser produces:
the value scaled by ten is rounded to an integer and printed with the
last digit behind a decimal point.  (The binary-float rounding error of
CPython is not modelled; the digit-string shape is identical.) -/
def fmt1 (q : Rat) : String :=
  let n := (roundHalfEven (q * 10)).toNat
  toString (n / 10) ++ "." ++ toString (n % 10)

/-- The focal-length formatting: `f"{int(v)}mm"` for whole values,
`f"{v:.1f}mm"` otherwise. -/
def formatFocal (q : Rat) : String :=
  if q.den = 1 then toString q.num ++ "mm" else fmt1 q ++ "mm"

/-! ### String utilities -/

/-- Python `str.split(sep)` for a one-character separator (used with
`'\n'` and `'/'`). -/
def splitOnCharAux (sep : Char) : List Char → List Char → List (List Char)
  | [], acc => [acc.reverse]
  | c :: rest, acc =>
    if c = sep then acc.reverse :: splitOnCharAux sep rest []
    else splitOnCharAux sep rest (c :: acc)

/-- The lines of the ExifTool output (`exif_output.split('\n')`). -/
def splitLines (s : String) : List String :=
  (splitOnCharAux '\n' s.data []).map fun l => ⟨l⟩

/-- Python `sub in s` substring test. -/
def strContains (hay sub : String) : Bool :=
  hay.data.tails.any fun t => sub.data.isPrefixOf t

/-- `line.split(':', 1)` guarded by `':' in line`: key and value around
the first colon, both stripped. -/
def splitKV (line : String) : Option (String × String) :=
  if line.data.contains ':' then
    some (pyStrip ⟨line.data.takeWhile (· ≠ ':')⟩,
          pyStrip ⟨(line.data.dropWhile (· ≠ ':')).tail⟩)
  else none

/-! ### The record and Python truthiness -/

/-- The dictionary built by `parse_exif_output`. -/
structure ExifData where
  file_name : String
  camera : Option String
  lens : Option String
  iso : Option Int
  speed : Option String
  aperture : Option String
  focal_length : Option String
deriving Repr, DecidableEq

/-- Truthiness of an optional string field (`if data['x']`): both `None`
and `""` are falsy. -/
def strTruthy : Option String → Bool
  | none => false
  | some s => s ≠ ""

/-- Truthiness of the optional ISO field: both `None` and `0` are
falsy. -/
def intTruthy : Option Int → Bool
  | none => false
  | some n => n ≠ 0

/-! ### The parser, field by field -/

/-- The `Camera Model Name` / `Camera Type 2` block. -/
def stepCamera (d : ExifData) (key value : String) : ExifData :=
  if strTruthy d.camera then d
  else if key = "Camera Model Name" then { d with camera := some value }
  else if key = "Camera Type 2" then
    if strTruthy d.camera then d else { d with camera := some value }
  else d

/-- The tiered lens block: `RF Lens Type` and `Lens ID` always overwrite;
`Lens Type`, `Lens Model` and `Lens Info` only fill a falsy field. -/
def stepLens (d : ExifData) (key value : String) : ExifData :=
  if key = "RF Lens Type" then { d with lens := some value }
  else if key = "Lens ID" then { d with lens := some value }
  else if key = "Lens Type" then
    if strTruthy d.lens then d else { d with lens := some value }
  else if key = "Lens Model" then
    if strTruthy d.lens then d else { d with lens := some value }
  else if key = "Lens Info" then
    if strTruthy d.lens then d else { d with lens := some value }
  else d

/-- `int(re.search(r'(\d+)', value).group(1))` when the search hits. -/
def isoFromValue (value : String) : Option Int :=
  (firstDigitRunAux value.data).map fun run => (digitsToNat run : Int)

/-- The ISO block: `ISO` first, else `Camera ISO` unless the value
contains `"Auto"`. -/
def stepIso (d : ExifData) (key value : String) : ExifData :=
  if intTruthy d.iso then d
  else if key = "ISO" then
    match isoFromValue value with
    | some n => { d with iso := some n }
    | none => d
  else if key = "Camera ISO" then
    if strContains value "Auto" then d
    else
      match isoFromValue value with
      | some n => { d with iso := some n }
      | none => d
  else d

/-- The shutter-speed block: value stored verbatim. -/
def stepSpeed (d : ExifData) (key value : String) : ExifData :=
  if strTruthy d.speed then d
  else if key = "Shutter Speed" ∨ key = "Exposure Time" ∨ key = "Shutter Speed Value" then
    { d with speed := some value }
  else d

/-- The aperture block: first `[\d.]+` run, prefixed with `f/`. -/
def stepAperture (d : ExifData) (key value : String) : ExifData :=
  if strTruthy d.aperture then d
  else if key = "Aperture" ∨ key = "F Number" ∨ key = "Aperture Value" then
    match firstNumRunAux value.data with
    | some run => { d with aperture := some ("f/" ++ (⟨run⟩ : String)) }
    | none => d
  else d

/-- The focal-length block.  `float(...)` on the matched token raises
`ValueError` when the token is digits-and-dots but not a valid float
(for example `"."`); that exception is the `Except.error` case. -/
def stepFocal (d : ExifData) (key value : String) : Except String ExifData :=
  if strTruthy d.focal_length then .ok d
  else if key = "Focal Length" then
    match focalSearchAux value.data with
    | some run =>
      match numRunToRat run with
      | some q => .ok { d with focal_length := some (formatFocal q) }
      | none => .error "could not convert string to float"
    | none => .ok d
  else .ok d

/-- One iteration of the parser's line loop. -/
def processLine (d : ExifData) (line : String) : Except String ExifData :=
  if pyStrip line = "" then .ok d
  else
    match splitKV line with
    | none => .ok d
    | some (key, value) =>
      stepFocal
        (stepAperture
          (stepSpeed
            (stepIso
              (stepLens (stepCamera d key value) key value)
              key value)
            key value)
          key value)
        key value

/-- The record all fields start from. -/
def initData (file_name : String) : ExifData :=
  ⟨file_name, none, none, none, none, none, none⟩

/-- `parse_exif_output` from the source: fold the line loop over the
split input. -/
def parse_exif_output (exif_output : String) (file_name : String) :
    Except String ExifData :=
  (splitLines exif_output).foldlM processLine (initData file_name)

/-! ### Lens canonicalization (`generate_statistics`, first pass) -/

/-- A `Counter` over keys `κ`, as the function from keys to counts. -/
def cAdd {κ : Type} [DecidableEq κ] (c : κ → Nat) (k : κ) : κ → Nat :=
  fun x => if x = k then c x + 1 else c x

/-- One group of `lens_variations[normalized]`: the original-casing
variants with their counts, in insertion (first-appearance) order, the
iteration order of a Python dict. -/
abbrev VarGroup := List (String × Nat)

/-- `lens_variations`: normalized key to variant group, in insertion
order. -/
abbrev Variations := List (String × VarGroup)

/-- `variations[original] += 1` inside one group. -/
def bumpVar : VarGroup → String → VarGroup
  | [], s => [(s, 1)]
  | (v, c) :: rest, s =>
    if v = s then (v, c + 1) :: rest else (v, c) :: bumpVar rest s

/-- Update the two-level dictionary at normalized key `k` with original
string `s`. -/
def addVarAux : Variations → String → String → Variations
  | [], k, s => [(k, [(s, 1)])]
  | (k₀, g) :: rest, k, s =>
    if k₀ = k then (k₀, bumpVar g s) :: rest
    else (k₀, g) :: addVarAux rest k s

/-- `lens_variations[normalize_lens_name(s)][s] += 1`. -/
def addVar (vars : Variations) (s : String) : Variations :=
  addVarAux vars (normalize_lens_name s) s

/-- The raw lens string of a record, when its lens field is truthy
(`data['lens']`). -/
def lensLabel (d : ExifData) : String :=
  d.lens.getD ""

/-- First pass of `generate_statistics`: collect all lens variations. -/
def lensVariations (results : List ExifData) : Variations :=
  results.foldl (fun vars d => if strTruthy d.lens then addVar vars (lensLabel d) else vars) []

/-- `max(variations.items(), key=lambda x: x[1])[0]`: Python `max`
returns the first item attaining the maximum, and dict items iterate in
insertion order.  The `""` default is never reached: every group is
nonempty by construction. -/
def firstMaxVar : VarGroup → String
  | [] => ""
  | (v, c) :: rest =>
    (rest.foldl (fun best x => if x.2 > best.2 then x else best) (v, c)).1

/-- `lens_canonical_map`: normalized key to the most common variant. -/
def lens_canonical_map (results : List ExifData) : List (String × String) :=
  (lensVariations results).map fun e => (e.1, firstMaxVar e.2)

/-- Dictionary lookup in an association list (Python `map[k]` /
`k in map`). -/
def lookupStr (m : List (String × String)) (k : String) : Option String :=
  (m.find? fun p => p.1 == k).map fun p => p.2

/-- `lens_canonical_map[normalize_lens_name(s)]`.  For every truthy lens
string of the batch the key is present (the first pass inserted it), so
the `getD` default is never reached. -/
def canonicalOf (cmap : List (String × String)) (s : String) : String :=
  (lookupStr cmap (normalize_lens_name s)).getD ""

/-! ### Statistics counters (`generate_statistics`, second pass) -/

/-- `stats['total_photos']`. -/
def total_photos (results : List ExifData) : Nat :=
  results.length

/-- `stats['lenses']`: records counted under their canonical lens
label. -/
def statsLenses (results : List ExifData) : String → Nat :=
  results.foldl
    (fun c d =>
      if strTruthy d.lens then
        cAdd c (canonicalOf (lens_canonical_map results) (lensLabel d))
      else c)
    fun _ => 0

/-- `stats['apertures_by_lens']`, as a counter on (canonical lens,
aperture) pairs. -/
def aperturesByLens (results : List ExifData) : String × String → Nat :=
  results.foldl
    (fun c d =>
      if strTruthy d.lens ∧ strTruthy d.aperture then
        cAdd c (canonicalOf (lens_canonical_map results) (lensLabel d), d.aperture.getD "")
      else c)
    fun _ => 0

/-- `stats['focal_lengths_by_lens']`. -/
def focalsByLens (results : List ExifData) : String × String → Nat :=
  results.foldl
    (fun c d =>
      if strTruthy d.lens ∧ strTruthy d.focal_length then
        cAdd c (canonicalOf (lens_canonical_map results) (lensLabel d), d.focal_length.getD "")
      else c)
    fun _ => 0

/-- `stats['apertures']` (overall). -/
def aperturesCount (results : List ExifData) : String → Nat :=
  results.foldl
    (fun c d => if strTruthy d.aperture then cAdd c (d.aperture.getD "") else c)
    fun _ => 0

/-- `stats['focal_lengths']` (overall). -/
def focalsCount (results : List ExifData) : String → Nat :=
  results.foldl
    (fun c d => if strTruthy d.focal_length then cAdd c (d.focal_length.getD "") else c)
    fun _ => 0

/-! ### Displayed percentages (`display_statistics`) -/

/-- `count / stats['lenses'][lens] * 100`, the per-lens aperture table
percentage.  Python float division of integers is modelled as exact
rational division. -/
def perLensAperturePercent (results : List ExifData) (lens ap : String) : Rat :=
  ((aperturesByLens results (lens, ap) : Rat) / (statsLenses results lens : Rat)) * 100

/-- `count / stats['lenses'][lens] * 100`, the per-lens focal-length
table percentage. -/
def perLensFocalPercent (results : List ExifData) (lens fl : String) : Rat :=
  ((focalsByLens results (lens, fl) : Rat) / (statsLenses results lens : Rat)) * 100

/-- `count / stats['total_photos'] * 100`, the overall aperture table
percentage. -/
def overallAperturePercent (results : List ExifData) (ap : String) : Rat :=
  ((aperturesCount results ap : Rat) / (total_photos results : Rat)) * 100

/-- `count / stats['total_photos'] * 100`, the overall focal-length table
percentage. -/
def overallFocalPercent (results : List ExifData) (fl : String) : Rat :=
  ((focalsCount results fl : Rat) / (total_photos results : Rat)) * 100

/-! ### Shutter-speed ordering (`sort_speed` and the sorted table) -/

/-- Python float division, total where the source's `try` cannot raise:
`none` is `ZeroDivisionError`, raised exactly when the denominator is the
finite value 0.0.  A finite value divided by an infinity is 0.0; an
infinity divided by an infinity is NaN; NaN anywhere propagates. -/
def pyDiv (a b : PyVal) : Option PyVal :=
  match b with
  | .fin q =>
    if q = 0 then none
    else match a with
      | .fin p => some (.fin (p / q))
      | .inf n => some (.inf (n != decide (q < 0)))
      | .nan => some .nan
  | .inf _ =>
    match a with
    | .fin _ => some (.fin 0)
    | .inf _ => some .nan
    | .nan => some .nan
  | .nan => some .nan

/-- `sort_speed` from the source.  `none` stands for `float('inf')`: the
bare `except` catches the unpacking `ValueError` when the value does not
split into exactly two parts, the `ValueError` of an unparsable
`float(...)`, and the `ZeroDivisionError` of a zero denominator. -/
def sort_speed (s : String) : Option PyVal :=
  if s.data.contains '/' then
    match splitOnCharAux '/' s.data [] with
    | [num, den] =>
      match pyFloat ⟨num⟩, pyFloat ⟨den⟩ with
      | some a, some b => pyDiv a b
      | _, _ => none
    | _ => none
  else pyFloat s

/-- The effective sort key of a speed string: the `except` branches
return `float('inf')`. -/
def durKey : Option PyVal → PyVal
  | none => .inf false
  | some v => v

/-- The `<=` comparison of Python floats: `-inf` first, `+inf` last,
finite values by their rational value, and every comparison against NaN
is False. -/
def pvLE : PyVal → PyVal → Bool
  | .nan, _ => false
  | _, .nan => false
  | .inf true, _ => true
  | _, .inf true => false
  | _, .inf false => true
  | .inf false, _ => false
  | .fin p, .fin q => decide (p ≤ q)

/-- Comparison of effective durations, `except` values counted as
`float('inf')`. -/
def durLE (a b : Option PyVal) : Bool :=
  pvLE (durKey a) (durKey b)

/-- The sort key comparison `lambda x: (-x[1], sort_speed(x[0]))` on
`(speed string, count)` items. -/
def speedKeyLE (x y : String × Nat) : Bool :=
  if y.2 < x.2 then true
  else if x.2 < y.2 then false
  else durLE (sort_speed x.1) (sort_speed y.1)

/-- Stable insertion of an item into an already-built table prefix:
the item goes before the first earlier-inserted entry it compares
`<=` to. -/
def insertSpeed (x : String × Nat) : List (String × Nat) → List (String × Nat)
  | [] => [x]
  | y :: rest => if speedKeyLE x y then x :: y :: rest else y :: insertSpeed x rest

/-- The sorted shutter-speed table (before the top-10 truncation).
Python's `sorted` is modelled by a stable insertion sort on the same
key; on keys free of NaN the key comparison is a total preorder, and any
two stable sorts of a total preorder agree. -/
def sorted_speeds (items : List (String × Nat)) : List (String × Nat) :=
  items.foldr insertSpeed []

/-- The ranking relation of the shutter-speed table as the specification
states it: strictly larger counts first; among equal counts, ascending
effective exposure duration, any unparsable value last. -/
def speedRank (x y : String × Nat) : Prop :=
  y.2 < x.2 ∨ (x.2 = y.2 ∧ durLE (sort_speed x.1) (sort_speed y.1) = true)

/-! ### Specification-side definitions for canonicalization (claim C3) -/

/-- The truthy raw lens strings of the batch, in record order. -/
def rawLensList (results : List ExifData) : List String :=
  results.filterMap fun d => if strTruthy d.lens then some (lensLabel d) else none

/-- The distinct elements of a list, keeping first occurrences, in order
of first appearance. -/
def firstOccsAux (seen : List String) : List String → List String
  | [] => []
  | a :: l =>
    if a ∈ seen then firstOccsAux seen l
    else a :: firstOccsAux (a :: seen) l

/-- Distinct elements in order of first appearance. -/
def firstOccs (l : List String) : List String :=
  firstOccsAux [] l

/-- The variants of normalized key `k`, in order of first appearance in
the raw lens sequence (specification wording). -/
def variantsOf (raw : List String) (k : String) : List String :=
  firstOccs (raw.filter fun v => normalize_lens_name v = k)

/-- Lookup in the two-level variations dictionary. -/
def glookup (m : Variations) (k : String) : Option VarGroup :=
  (m.find? fun p => p.1 == k).map fun p => p.2

/-- The group a list of raw strings denotes: its distinct elements in
first-appearance order, each with its occurrence count. -/
def groupSpec (m : List String) : VarGroup :=
  (firstOccs m).map fun v => (v, m.count v)

/-- No two adjacent spaces: the shape `re.sub(r'\s+', ' ', ·)` leaves
behind. -/
def noTwoSpaces (a b : Char) : Prop :=
  ¬(a = ' ' ∧ b = ' ')

/-! ### Field-stability lemmas for the parser steps -/

theorem stepCamera_iso (d : ExifData) (k v : String) : (stepCamera d k v).iso = d.iso := by
  unfold stepCamera
  repeat' split
  all_goals rfl

theorem stepCamera_lens (d : ExifData) (k v : String) : (stepCamera d k v).lens = d.lens := by
  unfold stepCamera
  repeat' split
  all_goals rfl

theorem stepCamera_focal (d : ExifData) (k v : String) :
    (stepCamera d k v).focal_length = d.focal_length := by
  unfold stepCamera
  repeat' split
  all_goals rfl

theorem stepLens_camera (d : ExifData) (k v : String) : (stepLens d k v).camera = d.camera := by
  unfold stepLens
  repeat' split
  all_goals rfl

theorem stepLens_iso (d : ExifData) (k v : String) : (stepLens d k v).iso = d.iso := by
  unfold stepLens
  repeat' split
  all_goals rfl

theorem stepLens_focal (d : ExifData) (k v : String) :
    (stepLens d k v).focal_length = d.focal_length := by
  unfold stepLens
  repeat' split
  all_goals rfl

theorem stepIso_camera (d : ExifData) (k v : String) : (stepIso d k v).camera = d.camera := by
  unfold stepIso
  repeat' split
  all_goals rfl

theorem stepIso_lens (d : ExifData) (k v : String) : (stepIso d k v).lens = d.lens := by
  unfold stepIso
  repeat' split
  all_goals rfl

theorem stepIso_focal (d : ExifData) (k v : String) :
    (stepIso d k v).focal_length = d.focal_length := by
  unfold stepIso
  repeat' split
  all_goals rfl

theorem stepSpeed_camera (d : ExifData) (k v : String) : (stepSpeed d k v).camera = d.camera := by
  unfold stepSpeed
  repeat' split
  all_goals rfl

theorem stepSpeed_iso (d : ExifData) (k v : String) : (stepSpeed d k v).iso = d.iso := by
  unfold stepSpeed
  repeat' split
  all_goals rfl

theorem stepSpeed_focal (d : ExifData) (k v : String) :
    (stepSpeed d k v).focal_length = d.focal_length := by
  unfold stepSpeed
  repeat' split
  all_goals rfl

theorem stepAperture_camera (d : ExifData) (k v : String) :
    (stepAperture d k v).camera = d.camera := by
  unfold stepAperture
  repeat' split
  all_goals rfl

theorem stepAperture_iso (d : ExifData) (k v : String) : (stepAperture d k v).iso = d.iso := by
  unfold stepAperture
  repeat' split
  all_goals rfl

theorem stepAperture_focal (d : ExifData) (k v : String) :
    (stepAperture d k v).focal_length = d.focal_length := by
  unfold stepAperture
  repeat' split
  all_goals rfl

theorem stepFocal_camera (d : ExifData) (k v : String) (e : ExifData)
    (h : stepFocal d k v = .ok e) : e.camera = d.camera := by
  unfold stepFocal at h
  repeat' split at h
  all_goals first
    | (cases h; rfl)
    | exact absurd h (by simp)

theorem stepFocal_iso (d : ExifData) (k v : String) (e : ExifData)
    (h : stepFocal d k v = .ok e) : e.iso = d.iso := by
  unfold stepFocal at h
  repeat' split at h
  all_goals first
    | (cases h; rfl)
    | exact absurd h (by simp)

theorem stepCamera_of_truthy (d : ExifData) (k v : String) (h : strTruthy d.camera) :
    stepCamera d k v = d := by
  unfold stepCamera
  rw [if_pos h]

theorem stepIso_of_truthy (d : ExifData) (k v : String) (h : intTruthy d.iso) :
    stepIso d k v = d := by
  unfold stepIso
  rw [if_pos h]

theorem stepFocal_of_ne (d : ExifData) (k v : String) (h : k ≠ "Focal Length") :
    stepFocal d k v = .ok d := by
  unfold stepFocal
  split <;> simp [h]

/-! ### Line-level and parse-level facts -/

theorem processLine_split (d : ExifData) (line k v : String)
    (h1 : splitKV line = some (k, v)) (h2 : ¬ pyStrip line = "") :
    processLine d line =
      stepFocal
        (stepAperture (stepSpeed (stepIso (stepLens (stepCamera d k v) k v) k v) k v) k v)
        k v := by
  unfold processLine
  rw [if_neg h2, h1]

theorem processLine_camera (d : ExifData) (line : String) (e : ExifData)
    (hc : strTruthy d.camera) (h : processLine d line = .ok e) : e.camera = d.camera := by
  unfold processLine at h
  split at h
  · cases h
    rfl
  · split at h
    · cases h
      rfl
    · rename_i k v hkv
      have h3 := stepFocal_camera _ _ _ _ h
      rw [stepAperture_camera, stepSpeed_camera, stepIso_camera, stepLens_camera,
          stepCamera_of_truthy _ _ _ hc] at h3
      exact h3

theorem processLine_iso_of_truthy (d : ExifData) (line : String) (e : ExifData)
    (hc : intTruthy d.iso) (h : processLine d line = .ok e) : e.iso = d.iso := by
  unfold processLine at h
  split at h
  · cases h
    rfl
  · split at h
    · cases h
      rfl
    · rename_i k v hkv
      have h3 := stepFocal_iso _ _ _ _ h
      have hiso : intTruthy (stepLens (stepCamera d k v) k v).iso := by
        rw [stepLens_iso, stepCamera_iso]
        exact hc
      rw [stepAperture_iso, stepSpeed_iso, stepIso_of_truthy _ _ _ hiso,
          stepLens_iso, stepCamera_iso] at h3
      exact h3

theorem isoFromValue_nonneg (v : String) (n : Int) (h : isoFromValue v = some n) : 0 ≤ n := by
  unfold isoFromValue at h
  cases hr : firstDigitRunAux v.data with
  | none =>
    rw [hr] at h
    cases h
  | some run =>
    rw [hr] at h
    simp only [Option.map_some'] at h
    cases h
    exact Int.ofNat_nonneg _

theorem stepIso_nonneg (d : ExifData) (k v : String)
    (hP : ∀ n : Int, d.iso = some n → 0 ≤ n) :
    ∀ n : Int, (stepIso d k v).iso = some n → 0 ≤ n := by
  intro n hn
  unfold stepIso at hn
  split at hn
  · exact hP n hn
  · split at hn
    · split at hn
      · rename_i m heq
        simp at hn
        exact hn ▸ isoFromValue_nonneg _ _ heq
      · exact hP n hn
    · split at hn
      · split at hn
        · exact hP n hn
        · split at hn
          · rename_i m heq
            simp at hn
            exact hn ▸ isoFromValue_nonneg _ _ heq
          · exact hP n hn
      · exact hP n hn

theorem processLine_iso_nonneg (d : ExifData) (line : String) (e : ExifData)
    (h : processLine d line = .ok e) (hP : ∀ n : Int, d.iso = some n → 0 ≤ n) :
    ∀ n : Int, e.iso = some n → 0 ≤ n := by
  unfold processLine at h
  split at h
  · cases h
    exact hP
  · split at h
    · cases h
      exact hP
    · rename_i k v hkv
      intro n hn
      have he := stepFocal_iso _ _ _ _ h
      rw [stepAperture_iso, stepSpeed_iso] at he
      have hX : ∀ m : Int, (stepLens (stepCamera d k v) k v).iso = some m → 0 ≤ m := by
        intro m hm
        rw [stepLens_iso, stepCamera_iso] at hm
        exact hP m hm
      exact stepIso_nonneg _ k v hX n (he ▸ hn)

theorem foldlM_processLine_cons (x : String) (xs : List String) (d : ExifData) :
    (x :: xs).foldlM processLine d =
      match processLine d x with
      | .ok d1 => xs.foldlM processLine d1
      | .error msg => .error msg := by
  rw [List.foldlM_cons]
  cases processLine d x <;> rfl

theorem parse_inv (P : ExifData → Prop)
    (hstep : ∀ d line e, P d → processLine d line = .ok e → P e) :
    ∀ (lines : List String) (d e : ExifData),
      lines.foldlM processLine d = .ok e → P d → P e := by
  intro lines
  induction lines with
  | nil =>
    intro d e h hd
    simp only [List.foldlM_nil] at h
    cases h
    exact hd
  | cons x xs ih =>
    intro d e h hd
    rw [foldlM_processLine_cons] at h
    cases hx : processLine d x with
    | error msg =>
      rw [hx] at h
      cases h
    | ok d1 =>
      rw [hx] at h
      exact ih d1 e h (hstep d x d1 hd hx)

theorem parse_camera_stable (lines : List String) (d e : ExifData)
    (h : lines.foldlM processLine d = .ok e) (hc : strTruthy d.camera) :
    e.camera = d.camera := by
  have := parse_inv (fun x => strTruthy x.camera = true ∧ x.camera = d.camera)
    (by
      intro a line b ha hb
      have := processLine_camera a line b ha.1 hb
      exact ⟨by rw [this]; exact ha.1, by rw [this]; exact ha.2⟩)
    lines d e h ⟨hc, rfl⟩
  exact this.2

theorem parse_iso_stable (lines : List String) (d e : ExifData)
    (h : lines.foldlM processLine d = .ok e) (hc : intTruthy d.iso) :
    e.iso = d.iso := by
  have := parse_inv (fun x => intTruthy x.iso = true ∧ x.iso = d.iso)
    (by
      intro a line b ha hb
      have := processLine_iso_of_truthy a line b ha.1 hb
      exact ⟨by rw [this]; exact ha.1, by rw [this]; exact ha.2⟩)
    lines d e h ⟨hc, rfl⟩
  exact this.2

theorem foldl_cAdd_count {κ : Type} [DecidableEq κ] (p : ExifData → Prop) [DecidablePred p]
    (key : ExifData → κ) (l : List ExifData) :
    ∀ (c : κ → Nat) (k : κ),
      (l.foldl (fun c d => if p d then cAdd c (key d) else c) c) k
        = c k + l.countP fun d => decide (p d ∧ key d = k) := by
  induction l with
  | nil =>
    intro c k
    simp
  | cons d rest ih =>
    intro c k
    rw [List.foldl_cons, List.countP_cons, ih]
    by_cases hp : p d
    · rw [if_pos hp]
      by_cases hk : key d = k
      · have h1 : cAdd c (key d) k = c k + 1 := by
          unfold cAdd
          rw [if_pos hk.symm]
        have h2 : decide (p d ∧ key d = k) = true := by simp [hp, hk]
        rw [h1, h2]
        simp
        omega
      · have h1 : cAdd c (key d) k = c k := by
          unfold cAdd
          rw [if_neg fun h => hk h.symm]
        have h2 : decide (p d ∧ key d = k) = false := by simp [hk]
        rw [h1, h2]
        simp
    · rw [if_neg hp]
      have h2 : decide (p d ∧ key d = k) = false := by simp [hp]
      rw [h2]
      simp

theorem processLine_focal_set (d : ExifData) (line v : String) (run : List Char) (q : Rat)
    (h1 : splitKV line = some ("Focal Length", v)) (h2 : ¬ pyStrip line = "")
    (ht : strTruthy d.focal_length = false) (hs : focalSearchAux v.data = some run)
    (hq : numRunToRat run = some q) :
    processLine d line = .ok { d with focal_length := some (formatFocal q) } := by
  rw [processLine_split d line _ _ h1 h2]
  simp [stepCamera, stepLens, stepIso, stepSpeed, stepAperture, stepFocal, ht, hs, hq]

/-! ### Normalization is idempotent (claim C10) -/

theorem toNat_ofNat_of_lt {n : Nat} (h : n < 55296) : (Char.ofNat n).toNat = n := by
  rw [Char.ofNat, dif_pos (Or.inl h)]
  rfl

theorem pyLower_idem (c : Char) : pyLower (pyLower c) = pyLower c := by
  by_cases h : 65 ≤ c.toNat ∧ c.toNat ≤ 90
  · have h1 : pyLower c = Char.ofNat (c.toNat + 32) := by
      rw [pyLower, if_pos h]
    have ht : (Char.ofNat (c.toNat + 32)).toNat = c.toNat + 32 :=
      toNat_ofNat_of_lt (by omega)
    rw [h1, pyLower, if_neg]
    rw [ht]
    omega
  · have h1 : pyLower c = c := by
      rw [pyLower, if_neg h]
    rw [h1, h1]

theorem mem_squeezeSpaces : ∀ (l : List Char) (c : Char), c ∈ squeezeSpaces l → c ∈ l := by
  intro l
  induction l with
  | nil =>
    intro c h
    exact h
  | cons a l ih =>
    cases l with
    | nil =>
      intro c h
      exact h
    | cons b rest =>
      intro c h
      unfold squeezeSpaces at h
      by_cases hab : (a = ' ' && b = ' ') = true
      · rw [if_pos hab] at h
        exact List.mem_cons_of_mem a (ih c h)
      · rw [if_neg hab] at h
        rcases List.mem_cons.1 h with rfl | h
        · exact List.mem_cons_self c _
        · exact List.mem_cons_of_mem a (ih c h)

theorem squeezeSpaces_head (x : Char) :
    ∀ xs : List Char, ∃ t, squeezeSpaces (x :: xs) = x :: t := by
  suffices h : ∀ (xs : List Char) (x : Char), ∃ t, squeezeSpaces (x :: xs) = x :: t from
    fun xs => h xs x
  intro xs
  induction xs with
  | nil =>
    intro x
    exact ⟨[], rfl⟩
  | cons b rest ih =>
    intro x
    unfold squeezeSpaces
    by_cases h : (x = ' ' && b = ' ') = true
    · rw [if_pos h]
      obtain ⟨t, ht⟩ := ih b
      simp only [Bool.and_eq_true, decide_eq_true_eq] at h
      refine ⟨t, ?_⟩
      rw [ht, h.1, h.2]
    · rw [if_neg h]
      exact ⟨squeezeSpaces (b :: rest), rfl⟩

theorem chain'_squeezeSpaces : ∀ l : List Char, (squeezeSpaces l).Chain' noTwoSpaces := by
  intro l
  induction l with
  | nil => exact List.chain'_nil
  | cons a l ih =>
    cases l with
    | nil => exact List.chain'_singleton a
    | cons b rest =>
      unfold squeezeSpaces
      by_cases hab : (a = ' ' && b = ' ') = true
      · rw [if_pos hab]
        exact ih
      · rw [if_neg hab]
        obtain ⟨t, ht⟩ := squeezeSpaces_head b rest
        rw [ht]
        rw [ht] at ih
        refine List.chain'_cons.2 ⟨?_, ih⟩
        intro hcon
        apply hab
        simp [hcon.1, hcon.2]

theorem squeezeSpaces_eq_self : ∀ l : List Char,
    l.Chain' noTwoSpaces → squeezeSpaces l = l := by
  intro l
  induction l with
  | nil =>
    intro _
    rfl
  | cons a l ih =>
    cases l with
    | nil =>
      intro _
      rfl
    | cons b rest =>
      intro h
      rw [List.chain'_cons] at h
      unfold squeezeSpaces
      rw [if_neg (by simpa [noTwoSpaces] using h.1), ih h.2]

theorem collapseWSList_eq_self (l : List Char)
    (hsp : ∀ c ∈ l, isPySpace c = true → c = ' ')
    (hch : l.Chain' noTwoSpaces) :
    collapseWSList l = l := by
  unfold collapseWSList
  have hmap : (l.map fun c => if isPySpace c then ' ' else c) = l.map id := by
    apply List.map_congr_left
    intro c hc
    by_cases h : isPySpace c = true
    · rw [if_pos h, hsp c hc h]
      rfl
    · rw [if_neg h]
      rfl
  rw [hmap, List.map_id]
  exact squeezeSpaces_eq_self l hch

theorem mem_collapseWSList (l : List Char) (c : Char) (h : c ∈ collapseWSList l) :
    c = ' ' ∨ (c ∈ l ∧ isPySpace c = false) := by
  unfold collapseWSList at h
  have h2 := mem_squeezeSpaces _ c h
  obtain ⟨c₁, hc₁, he⟩ := List.mem_map.1 h2
  by_cases hs : isPySpace c₁ = true
  · left
    rw [← he, if_pos hs]
  · right
    rw [if_neg hs] at he
    subst he
    exact ⟨hc₁, by simpa using hs⟩

theorem head?_dropWhile_not (p : Char → Bool) :
    ∀ (l : List Char) (c : Char), (l.dropWhile p).head? = some c → p c = false := by
  intro l
  induction l with
  | nil =>
    intro c h
    cases h
  | cons a rest ih =>
    intro c h
    rw [List.dropWhile_cons] at h
    by_cases hp : p a
    · rw [if_pos hp] at h
      exact ih c h
    · rw [if_neg hp] at h
      cases h
      simpa using hp

theorem getLast?_dropWhile (p : Char → Bool) :
    ∀ l : List Char, l.dropWhile p ≠ [] → (l.dropWhile p).getLast? = l.getLast? := by
  intro l
  induction l with
  | nil =>
    intro h
    rfl
  | cons a rest ih =>
    intro h
    rw [List.dropWhile_cons] at h ⊢
    by_cases hp : p a
    · rw [if_pos hp] at h ⊢
      rw [ih h]
      have hr : rest ≠ [] := by
        intro e
        rw [e] at h
        exact h rfl
      cases rest with
      | nil => exact absurd rfl hr
      | cons b t => rw [List.getLast?_cons_cons]
    · rw [if_neg hp]

theorem chain'_dropWhile (p : Char → Bool) :
    ∀ l : List Char, l.Chain' noTwoSpaces → (l.dropWhile p).Chain' noTwoSpaces := by
  intro l
  induction l with
  | nil =>
    intro h
    exact h
  | cons a rest ih =>
    intro h
    rw [List.dropWhile_cons]
    by_cases hp : p a
    · rw [if_pos hp]
      exact ih h.tail
    · rw [if_neg hp]
      exact h

theorem chain'_reverse_noTwoSpaces (l : List Char) (h : l.Chain' noTwoSpaces) :
    l.reverse.Chain' noTwoSpaces := by
  rw [List.chain'_reverse]
  exact h.imp fun a b hab hcon => hab ⟨hcon.2, hcon.1⟩

theorem chain'_pyStripList (l : List Char) (h : l.Chain' noTwoSpaces) :
    (pyStripList l).Chain' noTwoSpaces := by
  unfold pyStripList
  exact chain'_reverse_noTwoSpaces _ (chain'_dropWhile _ _ (chain'_reverse_noTwoSpaces _
    (chain'_dropWhile _ _ h)))

theorem mem_pyStripList (l : List Char) (c : Char) (h : c ∈ pyStripList l) : c ∈ l := by
  unfold pyStripList at h
  rw [List.mem_reverse] at h
  have h1 := (List.dropWhile_sublist _).subset h
  rw [List.mem_reverse] at h1
  exact (List.dropWhile_sublist _).subset h1

theorem pyStripList_head (m : List Char) (c : Char)
    (h : (pyStripList m).head? = some c) : isPySpace c = false := by
  unfold pyStripList at h
  rw [List.head?_reverse] at h
  have hz : (m.dropWhile isPySpace).reverse.dropWhile isPySpace ≠ [] := by
    intro e
    rw [e] at h
    cases h
  rw [getLast?_dropWhile _ _ hz, List.getLast?_reverse] at h
  exact head?_dropWhile_not _ _ _ h

theorem pyStripList_last (m : List Char) (c : Char)
    (h : (pyStripList m).getLast? = some c) : isPySpace c = false := by
  unfold pyStripList at h
  rw [List.getLast?_reverse] at h
  exact head?_dropWhile_not _ _ _ h

theorem dropWhile_eq_self_of_head (p : Char → Bool) (l : List Char)
    (h : ∀ c, l.head? = some c → p c = false) : l.dropWhile p = l := by
  cases l with
  | nil => rfl
  | cons a rest =>
    rw [List.dropWhile_cons, if_neg]
    rw [h a rfl]
    intro hcon
    cases hcon

theorem pyStripList_eq_self (l : List Char)
    (h1 : ∀ c, l.head? = some c → isPySpace c = false)
    (h2 : ∀ c, l.getLast? = some c → isPySpace c = false) :
    pyStripList l = l := by
  unfold pyStripList
  rw [dropWhile_eq_self_of_head _ _ h1]
  rw [dropWhile_eq_self_of_head _ _ ?_, List.reverse_reverse]
  intro c hc
  rw [List.head?_reverse] at hc
  exact h2 c hc

theorem normalize_fixes (s : String) :
    normalize_lens_name (normalize_lens_name s) = normalize_lens_name s := by
  by_cases hs : s = ""
  · rw [hs]
    rfl
  · by_cases h0 : normalize_lens_name s = ""
    · rw [h0]
      rfl
    · have hns : normalize_lens_name s
          = (⟨pyStripList (collapseWSList (s.data.map pyLower))⟩ : String) := by
        rw [normalize_lens_name, if_neg hs]
      rw [normalize_lens_name, if_neg h0, hns]
      have hmem : ∀ c ∈ pyStripList (collapseWSList (s.data.map pyLower)),
          pyLower c = c ∧ (isPySpace c = true → c = ' ') := by
        intro c hc
        have h1 := mem_pyStripList _ c hc
        rcases mem_collapseWSList _ c h1 with rfl | ⟨h2, h3⟩
        · exact ⟨by decide, fun _ => rfl⟩
        · obtain ⟨c₀, _, he⟩ := List.mem_map.1 h2
          constructor
          · rw [← he, pyLower_idem]
          · intro hsp
            rw [hsp] at h3
            cases h3
      have hA : (pyStripList (collapseWSList (s.data.map pyLower))).map pyLower
          = pyStripList (collapseWSList (s.data.map pyLower)) := by
        have := List.map_congr_left (g := id) fun c hc => (hmem c hc).1
        rw [this, List.map_id]
      have hch : (pyStripList (collapseWSList (s.data.map pyLower))).Chain' noTwoSpaces :=
        chain'_pyStripList _ (chain'_squeezeSpaces _)
      have hB : collapseWSList (pyStripList (collapseWSList (s.data.map pyLower)))
          = pyStripList (collapseWSList (s.data.map pyLower)) :=
        collapseWSList_eq_self _ (fun c hc => (hmem c hc).2) hch
      have hC : pyStripList (pyStripList (collapseWSList (s.data.map pyLower)))
          = pyStripList (collapseWSList (s.data.map pyLower)) :=
        pyStripList_eq_self _ (fun c hc => pyStripList_head _ c hc)
          (fun c hc => pyStripList_last _ c hc)
      have hdata : ((⟨pyStripList (collapseWSList (s.data.map pyLower))⟩ : String)).data
          = pyStripList (collapseWSList (s.data.map pyLower)) := rfl
      rw [hdata, hA, hB, hC]

/-! ### Canonicalization: first-occurrence lists -/

theorem mem_firstOccsAux (v : String) :
    ∀ (m seen : List String), v ∈ firstOccsAux seen m ↔ v ∈ m ∧ v ∉ seen := by
  intro m
  induction m with
  | nil =>
    intro seen
    simp [firstOccsAux]
  | cons a l ih =>
    intro seen
    unfold firstOccsAux
    by_cases h : a ∈ seen
    · rw [if_pos h, ih]
      constructor
      · rintro ⟨hm, hs⟩
        exact ⟨List.mem_cons_of_mem a hm, hs⟩
      · rintro ⟨hm, hs⟩
        rcases List.mem_cons.1 hm with rfl | hm
        · exact absurd h hs
        · exact ⟨hm, hs⟩
    · rw [if_neg h]
      constructor
      · intro hv
        rcases List.mem_cons.1 hv with heq | hv
        · subst heq
          exact ⟨List.mem_cons_self v l, h⟩
        · have := (ih (a :: seen)).1 hv
          exact ⟨List.mem_cons_of_mem a this.1,
            fun hs => this.2 (List.mem_cons_of_mem a hs)⟩
      · rintro ⟨hm, hs⟩
        by_cases hva : v = a
        · exact hva ▸ List.mem_cons_self a _
        · rcases List.mem_cons.1 hm with rfl | hm
          · exact absurd rfl hva
          · refine List.mem_cons_of_mem a ((ih (a :: seen)).2 ⟨hm, ?_⟩)
            intro hv
            rcases List.mem_cons.1 hv with rfl | hv
            · exact hva rfl
            · exact hs hv

theorem nodup_firstOccsAux : ∀ (m seen : List String), (firstOccsAux seen m).Nodup := by
  intro m
  induction m with
  | nil =>
    intro seen
    exact List.nodup_nil
  | cons a l ih =>
    intro seen
    unfold firstOccsAux
    by_cases h : a ∈ seen
    · rw [if_pos h]
      exact ih seen
    · rw [if_neg h]
      refine List.Nodup.cons ?_ (ih (a :: seen))
      intro ha
      exact ((mem_firstOccsAux a l (a :: seen)).1 ha).2 (List.mem_cons_self a seen)

theorem firstOccsAux_append_singleton (s : String) :
    ∀ (m seen : List String),
      firstOccsAux seen (m ++ [s]) =
        firstOccsAux seen m ++ (if s ∈ seen ∨ s ∈ m then [] else [s]) := by
  intro m
  induction m with
  | nil =>
    intro seen
    simp only [List.nil_append, firstOccsAux]
    by_cases h : s ∈ seen
    · rw [if_pos h, if_pos (by simp [h])]
    · rw [if_neg h, if_neg (by simp [h])]
  | cons a l ih =>
    intro seen
    simp only [List.cons_append]
    unfold firstOccsAux
    by_cases h : a ∈ seen
    · rw [if_pos h, if_pos h, ih seen]
      have hcond : (s ∈ seen ∨ s ∈ l) ↔ (s ∈ seen ∨ s ∈ a :: l) := by
        constructor
        · rintro (hs | hs)
          · exact Or.inl hs
          · exact Or.inr (List.mem_cons_of_mem a hs)
        · rintro (hs | hs)
          · exact Or.inl hs
          · rcases List.mem_cons.1 hs with rfl | hs
            · exact Or.inl h
            · exact Or.inr hs
      rw [if_congr hcond rfl rfl]
    · rw [if_neg h, if_neg h, ih (a :: seen), List.cons_append]
      have hcond : (s ∈ a :: seen ∨ s ∈ l) ↔ (s ∈ seen ∨ s ∈ a :: l) := by
        constructor
        · rintro (hs | hs)
          · rcases List.mem_cons.1 hs with rfl | hs
            · exact Or.inr (List.mem_cons_self s l)
            · exact Or.inl hs
          · exact Or.inr (List.mem_cons_of_mem a hs)
        · rintro (hs | hs)
          · exact Or.inl (List.mem_cons_of_mem a hs)
          · rcases List.mem_cons.1 hs with rfl | hs
            · exact Or.inl (List.mem_cons_self s seen)
            · exact Or.inr hs
      rw [if_congr hcond rfl rfl]

theorem mem_firstOccs (v : String) (m : List String) : v ∈ firstOccs m ↔ v ∈ m := by
  rw [firstOccs, mem_firstOccsAux]
  simp

theorem nodup_firstOccs (m : List String) : (firstOccs m).Nodup :=
  nodup_firstOccsAux m []

theorem firstOccs_eq_nil (m : List String) : firstOccs m = [] ↔ m = [] := by
  cases m with
  | nil => simp [firstOccs, firstOccsAux]
  | cons a l => simp [firstOccs, firstOccsAux]

theorem firstOccs_append_singleton (m : List String) (s : String) :
    firstOccs (m ++ [s]) = firstOccs m ++ (if s ∈ m then [] else [s]) := by
  rw [firstOccs, firstOccsAux_append_singleton, firstOccs]
  have hcond : (s ∈ ([] : List String) ∨ s ∈ m) ↔ s ∈ m := by simp
  rw [if_congr hcond rfl rfl]

/-! ### Canonicalization: bumping one variant in a group -/

theorem bumpVar_map_of_not_mem (cnt : String → Nat) (s : String) :
    ∀ V : List String, s ∉ V →
      bumpVar (V.map fun v => (v, cnt v)) s = V.map (fun v => (v, cnt v)) ++ [(s, 1)] := by
  intro V
  induction V with
  | nil =>
    intro h
    rfl
  | cons a l ih =>
    intro h
    simp only [List.map_cons, bumpVar, List.cons_append]
    rw [if_neg fun ha => h (by rw [← ha]; exact List.mem_cons_self a l),
      ih fun hl => h (List.mem_cons_of_mem a hl)]

theorem bumpVar_map_of_mem (cnt : String → Nat) (s : String) :
    ∀ V : List String, V.Nodup → s ∈ V →
      bumpVar (V.map fun v => (v, cnt v)) s
        = V.map fun v => (v, if v = s then cnt v + 1 else cnt v) := by
  intro V
  induction V with
  | nil =>
    intro _ h
    cases h
  | cons a l ih =>
    intro hnd hmem
    simp only [List.map_cons, bumpVar]
    by_cases has : a = s
    · rw [if_pos has]
      subst has
      have hal : a ∉ l := (List.nodup_cons.1 hnd).1
      have hmap : l.map (fun v => (v, if v = a then cnt v + 1 else cnt v))
          = l.map fun v => (v, cnt v) := by
        apply List.map_congr_left
        intro v hv
        rw [if_neg fun hh => hal (by rw [← hh]; exact hv)]
      rw [hmap, if_pos rfl]
    · rw [if_neg has]
      rcases List.mem_cons.1 hmem with rfl | hml
      · exact absurd rfl has
      · rw [ih (List.nodup_cons.1 hnd).2 hml, if_neg has]

theorem groupSpec_append_singleton (m : List String) (s : String) :
    groupSpec (m ++ [s]) = bumpVar (groupSpec m) s := by
  unfold groupSpec
  by_cases h : s ∈ m
  · rw [firstOccs_append_singleton, if_pos h, List.append_nil,
      bumpVar_map_of_mem (fun v => m.count v) s (firstOccs m) (nodup_firstOccs m)
        ((mem_firstOccs s m).2 h)]
    apply List.map_congr_left
    intro v hv
    rw [List.count_append]
    by_cases hvs : v = s
    · subst hvs
      rw [if_pos rfl]
      simp
    · rw [if_neg hvs]
      have : List.count v [s] = 0 := by simp [hvs]
      rw [this, Nat.add_zero]
  · rw [firstOccs_append_singleton, if_neg h, List.map_append,
      bumpVar_map_of_not_mem (fun v => m.count v) s (firstOccs m)
        (fun hm => h ((mem_firstOccs s m).1 hm))]
    congr 1
    · apply List.map_congr_left
      intro v hv
      have hvm : v ∈ m := (mem_firstOccs v m).1 hv
      have hvs : v ≠ s := fun e => h (e ▸ hvm)
      rw [List.count_append]
      have : List.count v [s] = 0 := by simp [hvs]
      rw [this, Nat.add_zero]
    · simp only [List.map_cons, List.map_nil, List.count_append]
      rw [List.count_eq_zero.2 h]
      simp

/-! ### Canonicalization: the variations dictionary -/

theorem glookup_addVarAux_ne :
    ∀ (vars : Variations) (k k₀ s : String), k₀ ≠ k →
      glookup (addVarAux vars k₀ s) k = glookup vars k := by
  intro vars
  induction vars with
  | nil =>
    intro k k₀ s hne
    have hbeq : (k₀ == k) = false := by simp [hne]
    simp [addVarAux, glookup, List.find?, hbeq]
  | cons e rest ih =>
    intro k k₀ s hne
    obtain ⟨ek, eg⟩ := e
    unfold addVarAux
    by_cases h : ek = k₀
    · rw [if_pos h]
      unfold glookup
      have hek : (ek == k) = false := by
        simp [h, hne]
      simp [List.find?, hek]
    · rw [if_neg h]
      unfold glookup
      by_cases hk : ek = k
      · have hek : (ek == k) = true := by simp [hk]
        simp [List.find?, hek]
      · have hek : (ek == k) = false := by simp [hk]
        simp only [List.find?, hek]
        exact ih k k₀ s hne

theorem glookup_addVarAux_self :
    ∀ (vars : Variations) (k₀ s : String),
      glookup (addVarAux vars k₀ s) k₀
        = some (bumpVar ((glookup vars k₀).getD []) s) := by
  intro vars
  induction vars with
  | nil =>
    intro k₀ s
    show glookup [(k₀, [(s, 1)])] k₀ = some (bumpVar [] s)
    simp [glookup, List.find?, bumpVar]
  | cons e rest ih =>
    intro k₀ s
    obtain ⟨ek, eg⟩ := e
    unfold addVarAux
    by_cases h : ek = k₀
    · rw [if_pos h]
      have hek : (ek == k₀) = true := by simp [h]
      simp [glookup, List.find?, hek]
    · rw [if_neg h]
      have hek : (ek == k₀) = false := by simp [h]
      unfold glookup
      simp only [List.find?, hek]
      exact ih k₀ s

theorem glookup_foldl_addVar (k : String) :
    ∀ raw : List String,
      glookup (raw.foldl addVar []) k
        = if (raw.filter fun v => normalize_lens_name v = k) = [] then none
          else some (groupSpec (raw.filter fun v => normalize_lens_name v = k)) := by
  intro raw
  induction raw using List.reverseRecOn with
  | nil => simp [glookup, List.find?]
  | append_singleton raw s ih =>
    simp only [List.foldl_append, List.foldl_cons, List.foldl_nil, List.filter_append]
    by_cases hk : normalize_lens_name s = k
    · have hf : List.filter (fun v => decide (normalize_lens_name v = k)) [s] = [s] := by
        simp [hk]
      rw [hf]
      subst hk
      rw [addVar, glookup_addVarAux_self, ih]
      by_cases hm : (raw.filter fun v => normalize_lens_name v = normalize_lens_name s) = []
      · rw [if_pos hm, hm]
        rw [if_neg (by simp)]
        simp only [Option.getD_none]
        have h1 : bumpVar [] s = [(s, 1)] := rfl
        have h2 : groupSpec ([] ++ [s]) = [(s, 1)] := by
          simp [groupSpec, firstOccs, firstOccsAux]
        rw [h1, h2]
      · rw [if_neg hm, if_neg (by simp)]
        simp only [Option.getD_some]
        rw [groupSpec_append_singleton]
    · have hf : List.filter (fun v => decide (normalize_lens_name v = k)) [s] = [] := by
        simp [hk]
      rw [hf, List.append_nil, addVar, glookup_addVarAux_ne _ _ _ _ hk, ih]

theorem lensVariations_eq (results : List ExifData) :
    lensVariations results = (rawLensList results).foldl addVar [] := by
  unfold lensVariations rawLensList
  suffices h : ∀ init : Variations,
      results.foldl (fun vars d => if strTruthy d.lens then addVar vars (lensLabel d) else vars) init
        = ((results.filterMap fun d =>
            if strTruthy d.lens then some (lensLabel d) else none).foldl addVar init) from
    h []
  intro init
  induction results generalizing init with
  | nil => rfl
  | cons d rest ih =>
    simp only [List.foldl_cons, List.filterMap_cons]
    by_cases h : strTruthy d.lens
    · rw [if_pos h, if_pos h, List.foldl_cons]
      exact ih _
    · rw [if_neg h, if_neg h]
      exact ih _

theorem lookupStr_canonical_map (results : List ExifData) (k : String) :
    lookupStr (lens_canonical_map results) k
      = (glookup (lensVariations results) k).map firstMaxVar := by
  unfold lens_canonical_map lookupStr glookup
  induction lensVariations results with
  | nil => rfl
  | cons e rest ih =>
    obtain ⟨ek, eg⟩ := e
    simp only [List.map_cons]
    by_cases h : ek = k
    · have hek : (ek == k) = true := by simp [h]
      simp [List.find?, hek]
    · have hek : (ek == k) = false := by simp [h]
      simp only [List.find?, hek]
      exact ih

/-! ### Canonicalization: Python max over dict items -/

theorem pairFold_eq (cnt : String → Nat) :
    ∀ (V : List String) (b : String),
      V.foldl (fun best v => if cnt v > best.2 then (v, cnt v) else best) (b, cnt b)
        = (V.foldl (fun best v => if cnt v > cnt best then v else best) b,
            cnt (V.foldl (fun best v => if cnt v > cnt best then v else best) b)) := by
  intro V
  induction V with
  | nil =>
    intro b
    rfl
  | cons x xs ih =>
    intro b
    simp only [List.foldl_cons]
    by_cases h : cnt x > cnt b
    · rw [show (if cnt x > (b, cnt b).2 then (x, cnt x) else (b, cnt b)) = (x, cnt x) from
        if_pos h, if_pos h]
      exact ih x
    · rw [show (if cnt x > (b, cnt b).2 then (x, cnt x) else (b, cnt b)) = (b, cnt b) from
        if_neg h, if_neg h]
      exact ih b

theorem strFold_argmax (cnt : String → Nat) :
    ∀ (V : List String) (b : String),
      (∀ v ∈ b :: V,
        cnt v ≤ cnt (V.foldl (fun best v => if cnt v > cnt best then v else best) b)) ∧
      ∃ L₁ L₂,
        b :: V = L₁ ++ (V.foldl (fun best v => if cnt v > cnt best then v else best) b) :: L₂ ∧
        ∀ v ∈ L₁,
          cnt v < cnt (V.foldl (fun best v => if cnt v > cnt best then v else best) b) := by
  intro V
  induction V with
  | nil =>
    intro b
    simp only [List.foldl_nil]
    refine ⟨?_, [], [], rfl, by simp⟩
    intro v hv
    rcases List.mem_cons.1 hv with rfl | hv
    · exact le_refl _
    · cases hv
  | cons x xs ih =>
    intro b
    simp only [List.foldl_cons]
    by_cases h : cnt x > cnt b
    · rw [if_pos h]
      obtain ⟨hmax, L₁, L₂, heq, hlt⟩ := ih x
      have hxm := hmax x (List.mem_cons_self x xs)
      refine ⟨?_, b :: L₁, L₂, ?_, ?_⟩
      · intro v hv
        rcases List.mem_cons.1 hv with rfl | hv
        · omega
        · exact hmax v hv
      · rw [List.cons_append, ← heq]
      · intro v hv
        rcases List.mem_cons.1 hv with rfl | hv
        · omega
        · exact hlt v hv
    · rw [if_neg h]
      obtain ⟨hmax, L₁, L₂, heq, hlt⟩ := ih b
      have hbm := hmax b (List.mem_cons_self b xs)
      refine ⟨?_, ?_⟩
      · intro v hv
        rcases List.mem_cons.1 hv with rfl | hv
        · exact hbm
        · rcases List.mem_cons.1 hv with rfl | hv
          · omega
          · exact hmax v (List.mem_cons_of_mem b hv)
      · cases L₁ with
        | nil =>
          simp only [List.nil_append, List.cons.injEq] at heq
          obtain ⟨h1, h2⟩ := heq
          refine ⟨[], x :: xs, ?_, by simp⟩
          rw [List.nil_append, ← h1]
        | cons c L₁ =>
          simp only [List.cons_append, List.cons.injEq] at heq
          obtain ⟨hbc, h2⟩ := heq
          have hcm : cnt b < cnt (xs.foldl (fun best v => if cnt v > cnt best then v else best) b) := by
            have hc := hlt c (List.mem_cons_self c L₁)
            rw [← hbc] at hc
            exact hc
          refine ⟨b :: x :: L₁, L₂, ?_, ?_⟩
          · rw [List.cons_append, List.cons_append, ← h2]
          · intro v hv
            rcases List.mem_cons.1 hv with rfl | hv
            · exact hcm
            · rcases List.mem_cons.1 hv with rfl | hv
              · omega
              · refine hlt v ?_
                rw [← hbc] at hlt
                exact List.mem_cons_of_mem c hv

theorem firstMaxVar_eq (cnt : String → Nat) (v₀ : String) (V : List String) :
    firstMaxVar ((v₀ :: V).map fun v => (v, cnt v))
      = V.foldl (fun best v => if cnt v > cnt best then v else best) v₀ := by
  simp only [List.map_cons]
  show (List.foldl (fun best x => if x.2 > best.2 then x else best) (v₀, cnt v₀)
      (V.map fun v => (v, cnt v))).1 = _
  rw [List.foldl_map]
  show (V.foldl (fun best v => if cnt v > best.2 then (v, cnt v) else best) (v₀, cnt v₀)).1 = _
  rw [pairFold_eq]

/-! ### Shutter-speed comparator facts -/

theorem pvLE_trans {a b c : PyVal} (h1 : pvLE a b = true) (h2 : pvLE b c = true) :
    pvLE a c = true := by
  rcases a with p | (_ | _) | _ <;> rcases b with q | (_ | _) | _ <;>
      rcases c with r | (_ | _) | _ <;>
    simp_all [pvLE] <;>
    exact le_trans h1 h2

theorem pvLE_total (a b : PyVal) (ha : a ≠ PyVal.nan) (hb : b ≠ PyVal.nan) :
    (pvLE a b || pvLE b a) = true := by
  rcases a with p | (_ | _) | _ <;> rcases b with q | (_ | _) | _ <;>
    simp_all [pvLE] <;>
    exact le_total p q

theorem durLE_trans {a b c : Option PyVal} (h1 : durLE a b = true) (h2 : durLE b c = true) :
    durLE a c = true := by
  unfold durLE at h1 h2 ⊢
  exact pvLE_trans h1 h2

theorem durLE_total (a b : Option PyVal) (ha : durKey a ≠ PyVal.nan)
    (hb : durKey b ≠ PyVal.nan) : (durLE a b || durLE b a) = true := by
  unfold durLE
  exact pvLE_total _ _ ha hb

theorem speedKeyLE_iff (x y : String × Nat) :
    speedKeyLE x y = true ↔ speedRank x y := by
  unfold speedKeyLE speedRank
  by_cases h1 : y.2 < x.2
  · simp [h1]
  · by_cases h2 : x.2 < y.2
    · rw [if_neg h1, if_pos h2]
      constructor
      · intro hf
        cases hf
      · rintro (h | ⟨he, _⟩)
        · exact absurd h h1
        · omega
    · have he : x.2 = y.2 := by omega
      simp [h1, h2, he]

theorem speedKeyLE_trans (x y z : String × Nat) (h1 : speedKeyLE x y = true)
    (h2 : speedKeyLE y z = true) : speedKeyLE x z = true := by
  rw [speedKeyLE_iff] at h1 h2 ⊢
  unfold speedRank at h1 h2 ⊢
  rcases h1 with h | ⟨e1, d1⟩ <;> rcases h2 with h' | ⟨e2, d2⟩
  · left
    omega
  · left
    omega
  · left
    omega
  · right
    exact ⟨e1.trans e2, durLE_trans d1 d2⟩

theorem speedKeyLE_total_of_ne_nan (x y : String × Nat)
    (hx : durKey (sort_speed x.1) ≠ PyVal.nan)
    (hy : durKey (sort_speed y.1) ≠ PyVal.nan) :
    (speedKeyLE x y || speedKeyLE y x) = true := by
  simp only [Bool.or_eq_true, speedKeyLE_iff]
  unfold speedRank
  rcases Nat.lt_trichotomy x.2 y.2 with h | h | h
  · right
    left
    exact h
  · have hd := durLE_total (sort_speed x.1) (sort_speed y.1) hx hy
    rw [Bool.or_eq_true] at hd
    rcases hd with hd | hd
    · exact Or.inl (Or.inr ⟨h, hd⟩)
    · exact Or.inr (Or.inr ⟨h.symm, hd⟩)
  · left
    left
    exact h

/-! ### Insertion-sort facts for the shutter-speed table -/

theorem perm_insertSpeed (x : String × Nat) (l : List (String × Nat)) :
    List.Perm (insertSpeed x l) (x :: l) := by
  induction l with
  | nil => exact List.Perm.refl _
  | cons y rest ih =>
    unfold insertSpeed
    by_cases h : speedKeyLE x y = true
    · rw [if_pos h]
    · rw [if_neg h]
      exact (ih.cons y).trans (List.Perm.swap x y rest)

theorem perm_sorted_speeds (items : List (String × Nat)) :
    List.Perm (sorted_speeds items) items := by
  induction items with
  | nil => exact List.Perm.refl _
  | cons x rest ih =>
    have hstep : sorted_speeds (x :: rest) = insertSpeed x (sorted_speeds rest) := rfl
    rw [hstep]
    exact (perm_insertSpeed x (sorted_speeds rest)).trans (ih.cons x)

theorem pairwise_insertSpeed (x : String × Nat) (l : List (String × Nat))
    (hl : List.Pairwise (fun a b => speedKeyLE a b = true) l)
    (htot : ∀ y ∈ l, speedKeyLE x y = true ∨ speedKeyLE y x = true) :
    List.Pairwise (fun a b => speedKeyLE a b = true) (insertSpeed x l) := by
  induction l with
  | nil => exact List.pairwise_singleton _ _
  | cons y rest ih =>
    rcases List.pairwise_cons.1 hl with ⟨hy, hrest⟩
    unfold insertSpeed
    by_cases h : speedKeyLE x y = true
    · rw [if_pos h]
      refine List.pairwise_cons.2 ⟨?_, hl⟩
      intro z hz
      rcases List.mem_cons.1 hz with heq | hz'
      · rw [heq]
        exact h
      · exact speedKeyLE_trans x y z h (hy z hz')
    · rw [if_neg h]
      refine List.pairwise_cons.2
        ⟨?_, ih hrest fun z hz => htot z (List.mem_cons_of_mem y hz)⟩
      intro z hz
      rcases List.mem_cons.1 ((perm_insertSpeed x rest).mem_iff.1 hz) with heq | hz'
      · rw [heq]
        rcases htot y (List.mem_cons_self y rest) with h1 | h1
        · exact absurd h1 h
        · exact h1
      · exact hy z hz'

theorem pairwise_sorted_speeds (items : List (String × Nat))
    (hnan : ∀ x ∈ items, durKey (sort_speed x.1) ≠ PyVal.nan) :
    List.Pairwise (fun a b => speedKeyLE a b = true) (sorted_speeds items) := by
  induction items with
  | nil => exact List.Pairwise.nil
  | cons x rest ih =>
    have hstep : sorted_speeds (x :: rest) = insertSpeed x (sorted_speeds rest) := rfl
    rw [hstep]
    apply pairwise_insertSpeed
    · exact ih fun z hz => hnan z (List.mem_cons_of_mem x hz)
    · intro y hy
      have hy' : y ∈ rest := (perm_sorted_speeds rest).mem_iff.1 hy
      have ht := speedKeyLE_total_of_ne_nan x y (hnan x (List.mem_cons_self x rest))
        (hnan y (List.mem_cons_of_mem x hy'))
      rw [Bool.or_eq_true] at ht
      exact ht

/-! ### Claims about the parser -/

/-- C1: the specification says `parse` never fails on malformed input —
absent or unparseable fields are left unset.  The code contradicts this:
on a `Focal Length` line whose value matches the loose pattern
`([\d.]+)\s*mm` with a token that is not a valid number (here `"."`),
`float('.')` raises `ValueError` and the parse aborts instead of
returning a record with the field unset.  The theorem exhibits the
failure at the concrete input `"Focal Length: .mm"`. -/
theorem claim_C1_parse_raises :
    parse_exif_output "Focal Length: .mm" "file" =
      .error "could not convert string to float" := by
  decide

/-- C2: lens tier semantics.  An `RF Lens Type` or `Lens ID` line
overwrites the lens field regardless of its current contents; a
`Lens Type`, `Lens Model` or `Lens Info` line writes the field only when
it is still unset (the code's truthiness guard: `None` or the empty
string), which gives first-wins among those three in document order.
The two concrete inputs of the claim evaluate as stated. -/
theorem claim_C2_lens_tiers :
    (∀ (d : ExifData) (line k v : String), splitKV line = some (k, v) →
      ¬ pyStrip line = "" → (k = "RF Lens Type" ∨ k = "Lens ID") →
      processLine d line = .ok { d with lens := some v }) ∧
    (∀ (d : ExifData) (line k v : String), splitKV line = some (k, v) →
      ¬ pyStrip line = "" → (k = "Lens Type" ∨ k = "Lens Model" ∨ k = "Lens Info") →
      (strTruthy d.lens → processLine d line = .ok d) ∧
      (¬ strTruthy d.lens → processLine d line = .ok { d with lens := some v })) ∧
    parse_exif_output "Lens Model: A\nLens ID: B" "f" =
      .ok ⟨"f", none, some "B", none, none, none, none⟩ ∧
    parse_exif_output "Lens ID: B\nLens Type: C" "f" =
      .ok ⟨"f", none, some "B", none, none, none, none⟩ := by
  refine ⟨?_, ?_, by decide, by decide⟩
  · rintro d line k v h1 h2 (rfl | rfl) <;>
      rw [processLine_split d line _ _ h1 h2] <;>
      simp [stepCamera, stepLens, stepIso, stepSpeed, stepAperture, stepFocal]
  · rintro d line k v h1 h2 hk
    constructor
    · intro ht
      rcases hk with rfl | rfl | rfl <;>
        rw [processLine_split d line _ _ h1 h2] <;>
        simp [stepCamera, stepLens, stepIso, stepSpeed, stepAperture, stepFocal, ht]
    · intro ht
      rw [Bool.not_eq_true] at ht
      rcases hk with rfl | rfl | rfl <;>
        rw [processLine_split d line _ _ h1 h2] <;>
        simp [stepCamera, stepLens, stepIso, stepSpeed, stepAperture, stepFocal, ht]

/-- C2 witness: the lens-tier theorem applied at a concrete line. -/
theorem claim_C2_witness :
    processLine (initData "w") "Lens ID: RF85" =
      .ok { initData "w" with lens := some "RF85" } :=
  claim_C2_lens_tiers.1 (initData "w") "Lens ID: RF85" "Lens ID" "RF85"
    (by decide) (by decide) (Or.inr rfl)

/-- C6: the ISO field is set from the first run of digits anywhere in an
`ISO` value (`"AUTO 400"` gives `400`); a `Camera ISO` value is used only
when it does not contain the substring `"Auto"`; and once the field holds
a truthy (nonzero) value no later line changes it.  Unset is the code's
truthiness test: `None` or `0`. -/
theorem claim_C6_iso :
    (∀ (d : ExifData) (line v : String), splitKV line = some ("ISO", v) →
      ¬ pyStrip line = "" → ¬ intTruthy d.iso →
      processLine d line = .ok (match isoFromValue v with
        | some n => { d with iso := some n }
        | none => d)) ∧
    (∀ (d : ExifData) (line v : String), splitKV line = some ("Camera ISO", v) →
      ¬ pyStrip line = "" → ¬ intTruthy d.iso → strContains v "Auto" = true →
      processLine d line = .ok d) ∧
    (∀ (d : ExifData) (line v : String), splitKV line = some ("Camera ISO", v) →
      ¬ pyStrip line = "" → ¬ intTruthy d.iso → strContains v "Auto" = false →
      processLine d line = .ok (match isoFromValue v with
        | some n => { d with iso := some n }
        | none => d)) ∧
    (∀ (lines : List String) (d e : ExifData), lines.foldlM processLine d = .ok e →
      intTruthy d.iso → e.iso = d.iso) ∧
    isoFromValue "AUTO 400" = some 400 ∧
    parse_exif_output "ISO: AUTO 400" "f" =
      .ok ⟨"f", none, none, some 400, none, none, none⟩ ∧
    parse_exif_output "Camera ISO: Auto" "f" = .ok (initData "f") := by
  refine ⟨?_, ?_, ?_, parse_iso_stable, by decide, by decide, by decide⟩
  · intro d line v h1 h2 ht
    rw [Bool.not_eq_true] at ht
    rw [processLine_split d line _ _ h1 h2]
    cases hv : isoFromValue v <;>
      simp [stepCamera, stepLens, stepIso, stepSpeed, stepAperture, stepFocal, ht, hv]
  · intro d line v h1 h2 ht ha
    rw [Bool.not_eq_true] at ht
    rw [processLine_split d line _ _ h1 h2]
    simp [stepCamera, stepLens, stepIso, stepSpeed, stepAperture, stepFocal, ht, ha]
  · intro d line v h1 h2 ht ha
    rw [Bool.not_eq_true] at ht
    rw [processLine_split d line _ _ h1 h2]
    cases hv : isoFromValue v <;>
      simp [stepCamera, stepLens, stepIso, stepSpeed, stepAperture, stepFocal, ht, ha, hv]

/-- C6 witness: the ISO theorem applied at a concrete line. -/
theorem claim_C6_witness :
    processLine (initData "w") "ISO: AUTO 400" =
      .ok { initData "w" with iso := some 400 } := by
  have h := claim_C6_iso.1 (initData "w") "ISO: AUTO 400" "AUTO 400"
    (by decide) (by decide) (by decide)
  rw [h]
  decide

/-- C8: the camera field is taken from `Camera Model Name`, with
`Camera Type 2` as a fallback only while the field is unset (the code's
truthiness guard), and once the field holds a truthy (nonempty) value no
later line of the input overwrites it. -/
theorem claim_C8_camera :
    (∀ (d : ExifData) (line v : String), splitKV line = some ("Camera Model Name", v) →
      ¬ pyStrip line = "" → ¬ strTruthy d.camera →
      processLine d line = .ok { d with camera := some v }) ∧
    (∀ (d : ExifData) (line v : String), splitKV line = some ("Camera Type 2", v) →
      ¬ pyStrip line = "" → ¬ strTruthy d.camera →
      processLine d line = .ok { d with camera := some v }) ∧
    (∀ (d : ExifData) (line k v : String), splitKV line = some (k, v) →
      ¬ pyStrip line = "" → (k = "Camera Model Name" ∨ k = "Camera Type 2") →
      strTruthy d.camera → processLine d line = .ok d) ∧
    (∀ (lines : List String) (d e : ExifData), lines.foldlM processLine d = .ok e →
      strTruthy d.camera → e.camera = d.camera) ∧
    parse_exif_output "Camera Model Name: X\nCamera Type 2: Y" "f" =
      .ok ⟨"f", some "X", none, none, none, none, none⟩ ∧
    parse_exif_output "Camera Type 2: Y" "f" =
      .ok ⟨"f", some "Y", none, none, none, none, none⟩ := by
  refine ⟨?_, ?_, ?_, parse_camera_stable, by decide, by decide⟩
  · intro d line v h1 h2 ht
    rw [Bool.not_eq_true] at ht
    rw [processLine_split d line _ _ h1 h2]
    simp [stepCamera, stepLens, stepIso, stepSpeed, stepAperture, stepFocal, ht]
  · intro d line v h1 h2 ht
    rw [Bool.not_eq_true] at ht
    rw [processLine_split d line _ _ h1 h2]
    simp [stepCamera, stepLens, stepIso, stepSpeed, stepAperture, stepFocal, ht]
  · rintro d line k v h1 h2 hk ht
    rcases hk with rfl | rfl <;>
      rw [processLine_split d line _ _ h1 h2] <;>
      simp [stepCamera, stepLens, stepIso, stepSpeed, stepAperture, stepFocal, ht]

/-- C8 witness: the camera theorem applied at a concrete line. -/
theorem claim_C8_witness :
    processLine (initData "w") "Camera Model Name: EOS R5" =
      .ok { initData "w" with camera := some "EOS R5" } :=
  claim_C8_camera.1 (initData "w") "Camera Model Name: EOS R5" "EOS R5"
    (by decide) (by decide) (by decide)

/-- C9: in every record the parser returns, the ISO field never holds a
negative value, and whenever it is present in the sense of the script
(truthy, so nonzero) it is a positive integer.  A parsed `0` (input line
`ISO: 0`) is falsy and is treated as absent by every consumer of the
record. -/
theorem claim_C9_iso_positive (input fn : String) (d : ExifData)
    (h : parse_exif_output input fn = .ok d) :
    (∀ n : Int, d.iso = some n → 0 ≤ n) ∧
    (intTruthy d.iso → ∃ n : Int, d.iso = some n ∧ 0 < n) := by
  have hP : ∀ n : Int, d.iso = some n → 0 ≤ n := by
    refine parse_inv (fun x => ∀ n : Int, x.iso = some n → 0 ≤ n) ?_
      (splitLines input) (initData fn) d h ?_
    · intro a line b ha hb
      exact processLine_iso_nonneg a line b hb ha
    · intro n hn
      cases hn
  refine ⟨hP, ?_⟩
  intro ht
  cases hd : d.iso with
  | none => rw [hd] at ht; cases ht
  | some n =>
    refine ⟨n, rfl, ?_⟩
    have h0 := hP n hd
    rw [hd] at ht
    have : n ≠ 0 := by
      intro h'
      rw [h'] at ht
      cases ht
    omega

/-- C7: the focal-length field is set only from a `Focal Length` line
whose value contains a `[\d.]+` token followed, possibly after
whitespace, by `mm` (case-insensitive); the token is read as a float and
rendered `<int>mm` when whole-valued and `<digits>.<one digit>mm`
otherwise.  `"37 mm"` gives `"37mm"` and `"19.00 mm"` gives `"19mm"`. -/
theorem claim_C7_focal :
    (∀ (d : ExifData) (line k v : String), splitKV line = some (k, v) →
      ¬ pyStrip line = "" → k ≠ "Focal Length" →
      ∀ e, processLine d line = .ok e → e.focal_length = d.focal_length) ∧
    (∀ (d : ExifData) (line v : String), splitKV line = some ("Focal Length", v) →
      ¬ pyStrip line = "" → ¬ strTruthy d.focal_length →
      focalSearchAux v.data = none → processLine d line = .ok d) ∧
    (∀ (d : ExifData) (line v : String) (run : List Char) (q : Rat),
      splitKV line = some ("Focal Length", v) → ¬ pyStrip line = "" →
      ¬ strTruthy d.focal_length → focalSearchAux v.data = some run →
      numRunToRat run = some q →
      processLine d line = .ok { d with focal_length := some (formatFocal q) }) ∧
    (∀ q : Rat, q.den = 1 → formatFocal q = toString q.num ++ "mm") ∧
    (∀ q : Rat, q.den ≠ 1 → ∃ m r : Nat, r < 10 ∧
      formatFocal q = toString m ++ "." ++ toString r ++ "mm") ∧
    parse_exif_output "Focal Length: 37 mm" "f" =
      .ok ⟨"f", none, none, none, none, none, some "37mm"⟩ ∧
    parse_exif_output "Focal Length: 19.00 mm" "f" =
      .ok ⟨"f", none, none, none, none, none, some "19mm"⟩ := by
  have hq19 : numRunToRat ['1', '9', '.', '0', '0'] = some 19 := by
    have hc : (['1', '9', '.', '0', '0'].count '.') = 1 := by decide
    unfold numRunToRat
    rw [hc]
    norm_num
    refine ⟨by decide, ?_⟩
    have h1 : List.takeWhile (fun x => !decide (x = '.')) ['1', '9', '.', '0', '0']
        = ['1', '9'] := by decide
    have h2 : (List.dropWhile (fun x => !decide (x = '.')) ['1', '9', '.', '0', '0']).tail
        = ['0', '0'] := by decide
    have h5 : (List.dropWhile (fun x => !decide (x = '.')) ['1', '9', '.', '0', '0']).length
        = 3 := by decide
    rw [h1, h2, h5]
    have h3 : digitsToNat ['1', '9'] = 19 := by decide
    have h4 : digitsToNat ['0', '0'] = 0 := by decide
    rw [h3, h4]
    norm_num
  refine ⟨?_, ?_, ?_, ?_, ?_, by decide, ?_⟩
  · intro d line k v h1 h2 hk e he
    rw [processLine_split d line _ _ h1 h2, stepFocal_of_ne _ _ _ hk] at he
    cases he
    rw [stepAperture_focal, stepSpeed_focal, stepIso_focal, stepLens_focal, stepCamera_focal]
  · intro d line v h1 h2 ht hs
    rw [Bool.not_eq_true] at ht
    rw [processLine_split d line _ _ h1 h2]
    simp [stepCamera, stepLens, stepIso, stepSpeed, stepAperture, stepFocal, ht, hs]
  · intro d line v run q h1 h2 ht hs hq
    rw [Bool.not_eq_true] at ht
    exact processLine_focal_set d line v run q h1 h2 ht hs hq
  · intro q hq
    rw [formatFocal, if_pos hq]
  · intro q hq
    refine ⟨(roundHalfEven (q * 10)).toNat / 10, (roundHalfEven (q * 10)).toNat % 10,
      Nat.mod_lt _ (by norm_num), ?_⟩
    rw [formatFocal, if_neg hq]
    rfl
  · have hstep := processLine_focal_set (initData "f") "Focal Length: 19.00 mm" "19.00 mm"
      ['1', '9', '.', '0', '0'] 19 (by decide) (by decide) (by decide) (by decide) hq19
    have hf : formatFocal (19 : Rat) = "19mm" := by decide
    unfold parse_exif_output
    rw [show splitLines "Focal Length: 19.00 mm" = ["Focal Length: 19.00 mm"] from by decide,
      foldlM_processLine_cons, hstep]
    rw [hf]
    decide

/-- C7 witness: the focal-length theorem applied at a concrete line. -/
theorem claim_C7_witness :
    processLine (initData "w") "Focal Length: 37 mm" =
      .ok { initData "w" with focal_length := some (formatFocal 37) } :=
  claim_C7_focal.2.2.1 (initData "w") "Focal Length: 37 mm" "37 mm" ['3', '7'] 37
    (by decide) (by decide) (by decide) (by decide) (by decide)

/-- C3: the lens canonicalization groups the truthy raw lens strings by
their normalized key (`variantsOf` lists each key's distinct
original-casing variants in order of first appearance); the canonical
label of a key is a variant of that key whose occurrence count in the
whole batch is maximal, and every variant appearing before it has a
strictly smaller count (Python's `max` returns the first maximal dict
item, and dict items iterate in insertion order); empty or absent lens
strings contribute nothing, so a key has an entry exactly when some
truthy lens string normalizes to it. -/
theorem claim_C3_canonicalization (results : List ExifData) (k : String) :
    (lookupStr (lens_canonical_map results) k = none ↔
      variantsOf (rawLensList results) k = []) ∧
    ∀ c : String, lookupStr (lens_canonical_map results) k = some c →
      c ∈ variantsOf (rawLensList results) k ∧
      (∀ v ∈ variantsOf (rawLensList results) k,
        (rawLensList results).count v ≤ (rawLensList results).count c) ∧
      ∃ V₁ V₂, variantsOf (rawLensList results) k = V₁ ++ c :: V₂ ∧
        ∀ v ∈ V₁, (rawLensList results).count v < (rawLensList results).count c := by
  have hlk : lookupStr (lens_canonical_map results) k
      = (glookup ((rawLensList results).foldl addVar []) k).map firstMaxVar := by
    rw [lookupStr_canonical_map, lensVariations_eq]
  have hinv := glookup_foldl_addVar k (rawLensList results)
  have hvar : variantsOf (rawLensList results) k
      = firstOccs ((rawLensList results).filter fun v => normalize_lens_name v = k) := rfl
  constructor
  · rw [hlk, hinv]
    by_cases h : ((rawLensList results).filter fun v => normalize_lens_name v = k) = []
    · rw [if_pos h, hvar, h]
      simp [firstOccs, firstOccsAux]
    · rw [if_neg h]
      simp only [Option.map_some']
      constructor
      · intro hh
        cases hh
      · intro hh
        rw [hvar] at hh
        exact absurd ((firstOccs_eq_nil _).1 hh) h
  · intro c hc
    rw [hlk, hinv] at hc
    by_cases h : ((rawLensList results).filter fun v => normalize_lens_name v = k) = []
    · rw [if_pos h] at hc
      cases hc
    · rw [if_neg h] at hc
      simp only [Option.map_some', Option.some.injEq] at hc
      obtain ⟨v₀, V, hV⟩ :
          ∃ v₀ V, firstOccs ((rawLensList results).filter
            fun v => normalize_lens_name v = k) = v₀ :: V := by
        cases hF : firstOccs ((rawLensList results).filter
            fun v => normalize_lens_name v = k) with
        | nil => exact absurd ((firstOccs_eq_nil _).1 hF) h
        | cons a l => exact ⟨a, l, rfl⟩
      have hgs : groupSpec ((rawLensList results).filter fun v => normalize_lens_name v = k)
          = (v₀ :: V).map fun v =>
              (v, ((rawLensList results).filter fun v => normalize_lens_name v = k).count v) := by
        unfold groupSpec
        rw [hV]
      rw [hgs, firstMaxVar_eq] at hc
      obtain ⟨hmax, L₁, L₂, hsplit, hlt⟩ := strFold_argmax
        (fun v => ((rawLensList results).filter fun v => normalize_lens_name v = k).count v) V v₀
      rw [hc] at hmax hsplit hlt
      have hcount : ∀ v ∈ firstOccs ((rawLensList results).filter
          fun v => normalize_lens_name v = k),
          ((rawLensList results).filter fun v => normalize_lens_name v = k).count v
            = (rawLensList results).count v := by
        intro v hv
        have hvm := (mem_firstOccs v _).1 hv
        have hp := (List.mem_filter.1 hvm).2
        exact List.count_filter hp
      have hcmem : c ∈ firstOccs ((rawLensList results).filter
          fun v => normalize_lens_name v = k) := by
        rw [hV, hsplit]
        simp
      refine ⟨?_, ?_, L₁, L₂, ?_, ?_⟩
      · rw [hvar]
        exact hcmem
      · intro v hv
        rw [hvar] at hv
        have h1 := hmax v (by rw [← hV]; exact hv)
        rw [hcount v hv, hcount c hcmem] at h1
        exact h1
      · rw [hvar, hV]
        exact hsplit
      · intro v hv
        have hvmem : v ∈ firstOccs ((rawLensList results).filter
            fun v => normalize_lens_name v = k) := by
          rw [hV, hsplit]
          exact List.mem_append_left _ hv
        have h1 := hlt v hv
        rw [hcount v hvmem, hcount c hcmem] at h1
        exact h1

/-- C3 witness: the canonicalization theorem applied to a concrete batch
in which the variant `"AB"` occurs twice and `"ab"` once under the
normalized key `"ab"`. -/
theorem claim_C3_witness :
    "AB" ∈ variantsOf (rawLensList
      [⟨"1", none, some "AB", none, none, none, none⟩,
       ⟨"2", none, some "ab", none, none, none, none⟩,
       ⟨"3", none, some "AB", none, none, none, none⟩]) "ab" ∧
    (∀ v ∈ variantsOf (rawLensList
      [⟨"1", none, some "AB", none, none, none, none⟩,
       ⟨"2", none, some "ab", none, none, none, none⟩,
       ⟨"3", none, some "AB", none, none, none, none⟩]) "ab",
      (rawLensList
        [⟨"1", none, some "AB", none, none, none, none⟩,
         ⟨"2", none, some "ab", none, none, none, none⟩,
         ⟨"3", none, some "AB", none, none, none, none⟩]).count v ≤
      (rawLensList
        [⟨"1", none, some "AB", none, none, none, none⟩,
         ⟨"2", none, some "ab", none, none, none, none⟩,
         ⟨"3", none, some "AB", none, none, none, none⟩]).count "AB") ∧
    ∃ V₁ V₂, variantsOf (rawLensList
      [⟨"1", none, some "AB", none, none, none, none⟩,
       ⟨"2", none, some "ab", none, none, none, none⟩,
       ⟨"3", none, some "AB", none, none, none, none⟩]) "ab" = V₁ ++ "AB" :: V₂ ∧
      ∀ v ∈ V₁,
        (rawLensList
          [⟨"1", none, some "AB", none, none, none, none⟩,
           ⟨"2", none, some "ab", none, none, none, none⟩,
           ⟨"3", none, some "AB", none, none, none, none⟩]).count v <
        (rawLensList
          [⟨"1", none, some "AB", none, none, none, none⟩,
           ⟨"2", none, some "ab", none, none, none, none⟩,
           ⟨"3", none, some "AB", none, none, none, none⟩]).count "AB" :=
  (claim_C3_canonicalization
    [⟨"1", none, some "AB", none, none, none, none⟩,
     ⟨"2", none, some "ab", none, none, none, none⟩,
     ⟨"3", none, some "AB", none, none, none, none⟩] "ab").2 "AB" (by decide)

/-- C10: lens-name normalization is idempotent, and consequently every
key of the lens identity mapping (each is the normalization of some raw
lens string) is a fixed point of normalization. -/
theorem claim_C10_normalize_idempotent :
    (∀ s : String, normalize_lens_name (normalize_lens_name s) = normalize_lens_name s) ∧
    ∀ (results : List ExifData) (k : String),
      (lookupStr (lens_canonical_map results) k).isSome = true →
      normalize_lens_name k = k := by
  refine ⟨normalize_fixes, ?_⟩
  intro results k hk
  rw [lookupStr_canonical_map, lensVariations_eq, glookup_foldl_addVar] at hk
  by_cases h : ((rawLensList results).filter fun v => normalize_lens_name v = k) = []
  · rw [if_pos h] at hk
    cases hk
  · obtain ⟨v, hv⟩ := List.exists_mem_of_ne_nil _ h
    have hmem := List.mem_filter.1 hv
    have hnv : normalize_lens_name v = k := by simpa using hmem.2
    rw [← hnv, normalize_fixes]

/-- C10 witness: the idempotence theorem applied to a concrete mapping
key. -/
theorem claim_C10_witness :
    normalize_lens_name "ab" = "ab" :=
  claim_C10_normalize_idempotent.2
    [⟨"1", none, some "AB", none, none, none, none⟩] "ab" (by decide)

/-- C4: in the per-lens aperture and focal-length breakdown tables each
percentage is `100 × count ÷ (records attributed to that canonical
lens)` — the denominator `stats['lenses'][lens]` counts exactly the
records whose canonical lens label is that lens, never the batch total —
while the overall tables divide by the total record count. -/
theorem claim_C4_percent_denominators (results : List ExifData) (L ap fl : String) :
    statsLenses results L
      = results.countP (fun d => decide ((strTruthy d.lens = true) ∧
          canonicalOf (lens_canonical_map results) (lensLabel d) = L)) ∧
    aperturesByLens results (L, ap)
      = results.countP (fun d => decide (((strTruthy d.lens = true) ∧ (strTruthy d.aperture = true)) ∧
          canonicalOf (lens_canonical_map results) (lensLabel d) = L ∧ d.aperture.getD "" = ap)) ∧
    focalsByLens results (L, fl)
      = results.countP (fun d => decide (((strTruthy d.lens = true) ∧ (strTruthy d.focal_length = true)) ∧
          canonicalOf (lens_canonical_map results) (lensLabel d) = L ∧ d.focal_length.getD "" = fl)) ∧
    perLensAperturePercent results L ap
      = 100 * (aperturesByLens results (L, ap) : Rat)
          / (results.countP (fun d => decide ((strTruthy d.lens = true) ∧
              canonicalOf (lens_canonical_map results) (lensLabel d) = L)) : Rat) ∧
    perLensFocalPercent results L fl
      = 100 * (focalsByLens results (L, fl) : Rat)
          / (results.countP (fun d => decide ((strTruthy d.lens = true) ∧
              canonicalOf (lens_canonical_map results) (lensLabel d) = L)) : Rat) ∧
    overallAperturePercent results ap
      = 100 * (aperturesCount results ap : Rat) / (results.length : Rat) ∧
    overallFocalPercent results fl
      = 100 * (focalsCount results fl : Rat) / (results.length : Rat) := by
  have hlens : statsLenses results L
      = results.countP (fun d => decide ((strTruthy d.lens = true) ∧
          canonicalOf (lens_canonical_map results) (lensLabel d) = L)) := by
    have h := foldl_cAdd_count (fun d => strTruthy d.lens = true)
      (fun d => canonicalOf (lens_canonical_map results) (lensLabel d)) results (fun _ => 0) L
    exact h.trans (by rw [Nat.zero_add])
  have hap : aperturesByLens results (L, ap)
      = results.countP (fun d => decide (((strTruthy d.lens = true) ∧ (strTruthy d.aperture = true)) ∧
          canonicalOf (lens_canonical_map results) (lensLabel d) = L ∧ d.aperture.getD "" = ap)) := by
    have h := foldl_cAdd_count (fun d => strTruthy d.lens = true ∧ strTruthy d.aperture = true)
      (fun d => (canonicalOf (lens_canonical_map results) (lensLabel d), d.aperture.getD ""))
      results (fun _ => 0) (L, ap)
    refine h.trans ?_
    rw [Nat.zero_add]
    apply List.countP_congr
    intro d _
    simp [Prod.mk.injEq]
  have hfl : focalsByLens results (L, fl)
      = results.countP (fun d => decide (((strTruthy d.lens = true) ∧ (strTruthy d.focal_length = true)) ∧
          canonicalOf (lens_canonical_map results) (lensLabel d) = L ∧ d.focal_length.getD "" = fl)) := by
    have h := foldl_cAdd_count (fun d => strTruthy d.lens = true ∧ strTruthy d.focal_length = true)
      (fun d => (canonicalOf (lens_canonical_map results) (lensLabel d), d.focal_length.getD ""))
      results (fun _ => 0) (L, fl)
    refine h.trans ?_
    rw [Nat.zero_add]
    apply List.countP_congr
    intro d _
    simp [Prod.mk.injEq]
  refine ⟨hlens, hap, hfl, ?_, ?_, ?_, ?_⟩
  · rw [perLensAperturePercent, ← hlens]
    ring
  · rw [perLensFocalPercent, ← hlens]
    ring
  · rw [overallAperturePercent, total_photos]
    ring
  · rw [overallFocalPercent, total_photos]
    ring

/-- C5 counterexample: the Python-parsable shutter-speed value `nan`
evaluates to NaN, which compares false against every value in both
directions, so when it ties on count with another entry (here `1/250`)
neither order of the two entries satisfies the claimed ranking — the
claim's tie-break by ascending duration admits no ordering at all. -/
theorem claim_C5_counterexample :
    sort_speed "nan" = some PyVal.nan ∧
    ¬ List.Pairwise speedRank [("nan", 1), ("1/250", 1)] ∧
    ¬ List.Pairwise speedRank [("1/250", 1), ("nan", 1)] := by
  have h_nan : sort_speed "nan" = some PyVal.nan := by decide
  have hp1 : pyFloat "1" = some (PyVal.fin 1) := by
    have hsh : pyFloatShape "1" = some (.lit false ⟨['1'], [], false, false, []⟩) := by decide
    have s1 : stripUnderscores ['1'] = ['1'] := by decide
    have s0 : stripUnderscores ([] : List Char) = [] := by decide
    have d1 : digitsToNat ['1'] = 1 := by decide
    have d0 : digitsToNat ([] : List Char) = 0 := by decide
    rw [pyFloat, hsh, Option.map_some']
    norm_num [shapeVal, floatLitVal, s1, s0, d1, d0]
  have hp250 : pyFloat "250" = some (PyVal.fin 250) := by
    have hsh : pyFloatShape "250"
        = some (.lit false ⟨['2', '5', '0'], [], false, false, []⟩) := by decide
    have s1 : stripUnderscores ['2', '5', '0'] = ['2', '5', '0'] := by decide
    have s0 : stripUnderscores ([] : List Char) = [] := by decide
    have d1 : digitsToNat ['2', '5', '0'] = 250 := by decide
    have d0 : digitsToNat ([] : List Char) = 0 := by decide
    rw [pyFloat, hsh, Option.map_some']
    norm_num [shapeVal, floatLitVal, s1, s0, d1, d0]
  have hp : sort_speed "1/250" = some (PyVal.fin (1 / 250)) := by
    have hsplit : splitOnCharAux '/' "1/250".data [] = [['1'], ['2', '5', '0']] := by decide
    have hc : "1/250".data.contains '/' = true := by decide
    unfold sort_speed
    rw [if_pos hc, hsplit]
    have h1 : (⟨['1']⟩ : String) = "1" := by decide
    have h2 : (⟨['2', '5', '0']⟩ : String) = "250" := by decide
    simp only [h1, h2, hp1, hp250]
    norm_num [pyDiv]
  refine ⟨h_nan, ?_, ?_⟩
  · intro hpw
    have h := (List.pairwise_cons.1 hpw).1 ("1/250", 1) (List.mem_singleton.2 rfl)
    unfold speedRank at h
    rcases h with h | ⟨_, hd⟩
    · exact absurd h (by decide)
    · rw [h_nan, hp] at hd
      simp [durLE, durKey, pvLE] at hd
  · intro hpw
    have h := (List.pairwise_cons.1 hpw).1 ("nan", 1) (List.mem_singleton.2 rfl)
    unfold speedRank at h
    rcases h with h | ⟨_, hd⟩
    · exact absurd h (by decide)
    · rw [h_nan, hp] at hd
      simp [durLE, durKey, pvLE] at hd

/-- C5 (amended): for a batch none of whose shutter-speed values
evaluates to NaN, the sorted table is a permutation of the items,
pairwise ranked by descending count with ties broken by ascending
effective exposure duration: a value containing `/` is read as numerator
over denominator seconds (`1/250` is 1/250 s), a plain value as a Python
float — including underscored literals (`1_0` is 10 s) and signed
infinities (`-inf` sorts first) — while any value the code fails to
evaluate (unparsable float, malformed fraction, zero denominator) sorts
last, as `float('inf')` (modelled as `none`).  The NaN-free restriction
is necessary: a NaN duration, reachable from the parsable value `nan`,
compares false against everything, so no order satisfies the
tie-break. -/
theorem claim_C5_speed_ranking (items : List (String × Nat))
    (hnan : ∀ x ∈ items, durKey (sort_speed x.1) ≠ PyVal.nan) :
    (sorted_speeds items).Perm items ∧
    List.Pairwise speedRank (sorted_speeds items) ∧
    sort_speed "1/250" = some (PyVal.fin (1 / 250)) ∧
    sort_speed "2" = some (PyVal.fin 2) ∧
    sort_speed "1_0" = some (PyVal.fin 10) ∧
    sort_speed "-inf" = some (PyVal.inf true) ∧
    sort_speed "abc" = none ∧
    sort_speed "1/2/3" = none ∧
    sort_speed "1/0" = none := by
  have hp1 : pyFloat "1" = some (PyVal.fin 1) := by
    have hsh : pyFloatShape "1" = some (.lit false ⟨['1'], [], false, false, []⟩) := by decide
    have s1 : stripUnderscores ['1'] = ['1'] := by decide
    have s0 : stripUnderscores ([] : List Char) = [] := by decide
    have d1 : digitsToNat ['1'] = 1 := by decide
    have d0 : digitsToNat ([] : List Char) = 0 := by decide
    rw [pyFloat, hsh, Option.map_some']
    norm_num [shapeVal, floatLitVal, s1, s0, d1, d0]
  have hp250 : pyFloat "250" = some (PyVal.fin 250) := by
    have hsh : pyFloatShape "250"
        = some (.lit false ⟨['2', '5', '0'], [], false, false, []⟩) := by decide
    have s1 : stripUnderscores ['2', '5', '0'] = ['2', '5', '0'] := by decide
    have s0 : stripUnderscores ([] : List Char) = [] := by decide
    have d1 : digitsToNat ['2', '5', '0'] = 250 := by decide
    have d0 : digitsToNat ([] : List Char) = 0 := by decide
    rw [pyFloat, hsh, Option.map_some']
    norm_num [shapeVal, floatLitVal, s1, s0, d1, d0]
  have hp0 : pyFloat "0" = some (PyVal.fin 0) := by
    have hsh : pyFloatShape "0" = some (.lit false ⟨['0'], [], false, false, []⟩) := by decide
    have s1 : stripUnderscores ['0'] = ['0'] := by decide
    have s0 : stripUnderscores ([] : List Char) = [] := by decide
    have d1 : digitsToNat ['0'] = 0 := by decide
    have d0 : digitsToNat ([] : List Char) = 0 := by decide
    rw [pyFloat, hsh, Option.map_some']
    norm_num [shapeVal, floatLitVal, s1, s0, d1, d0]
  refine ⟨perm_sorted_speeds items, ?_, ?_, ?_, ?_,
    by decide, by decide, by decide, ?_⟩
  · exact (pairwise_sorted_speeds items hnan).imp fun hxy => (speedKeyLE_iff _ _).1 hxy
  · have hsplit : splitOnCharAux '/' "1/250".data [] = [['1'], ['2', '5', '0']] := by decide
    have hc : "1/250".data.contains '/' = true := by decide
    unfold sort_speed
    rw [if_pos hc, hsplit]
    have h1 : (⟨['1']⟩ : String) = "1" := by decide
    have h2 : (⟨['2', '5', '0']⟩ : String) = "250" := by decide
    simp only [h1, h2, hp1, hp250]
    norm_num [pyDiv]
  · have hc : "2".data.contains '/' = false := by decide
    have hsh : pyFloatShape "2" = some (.lit false ⟨['2'], [], false, false, []⟩) := by decide
    have s1 : stripUnderscores ['2'] = ['2'] := by decide
    have s0 : stripUnderscores ([] : List Char) = [] := by decide
    have d1 : digitsToNat ['2'] = 2 := by decide
    have d0 : digitsToNat ([] : List Char) = 0 := by decide
    unfold sort_speed
    rw [if_neg (by rw [hc]; exact fun h => nomatch h)]
    rw [pyFloat, hsh, Option.map_some']
    norm_num [shapeVal, floatLitVal, s1, s0, d1, d0]
  · have hc : "1_0".data.contains '/' = false := by decide
    have hsh : pyFloatShape "1_0"
        = some (.lit false ⟨['1', '_', '0'], [], false, false, []⟩) := by decide
    have s1 : stripUnderscores ['1', '_', '0'] = ['1', '0'] := by decide
    have s0 : stripUnderscores ([] : List Char) = [] := by decide
    have d1 : digitsToNat ['1', '0'] = 10 := by decide
    have d0 : digitsToNat ([] : List Char) = 0 := by decide
    unfold sort_speed
    rw [if_neg (by rw [hc]; exact fun h => nomatch h)]
    rw [pyFloat, hsh, Option.map_some']
    norm_num [shapeVal, floatLitVal, s1, s0, d1, d0]
  · have hsplit : splitOnCharAux '/' "1/0".data [] = [['1'], ['0']] := by decide
    have hc : "1/0".data.contains '/' = true := by decide
    unfold sort_speed
    rw [if_pos hc, hsplit]
    have h1 : (⟨['1']⟩ : String) = "1" := by decide
    have h2 : (⟨['0']⟩ : String) = "0" := by decide
    simp only [h1, h2, hp1, hp0]
    norm_num [pyDiv]

/-- C5 witness: the amended ranking theorem applied to the concrete
one-item batch
whose single value sorts last as an unparsable float. -/
theorem claim_C5_witness :
    (sorted_speeds [("abc", 1)]).Perm [("abc", 1)] ∧
    List.Pairwise speedRank (sorted_speeds [("abc", 1)]) ∧
    sort_speed "1/250" = some (PyVal.fin (1 / 250)) ∧
    sort_speed "2" = some (PyVal.fin 2) ∧
    sort_speed "1_0" = some (PyVal.fin 10) ∧
    sort_speed "-inf" = some (PyVal.inf true) ∧
    sort_speed "abc" = none ∧
    sort_speed "1/2/3" = none ∧
    sort_speed "1/0" = none :=
  claim_C5_speed_ranking [("abc", 1)] (by decide)

/-- C9 witness: the ISO positivity theorem applied at a concrete
parse. -/
theorem claim_C9_witness :
    (∀ n : Int, (⟨"x", none, none, some 200, none, none, none⟩ : ExifData).iso = some n → 0 ≤ n) ∧
    (intTruthy (⟨"x", none, none, some 200, none, none, none⟩ : ExifData).iso →
      ∃ n : Int, (⟨"x", none, none, some 200, none, none, none⟩ : ExifData).iso = some n ∧ 0 < n) :=
  claim_C9_iso_positive "ISO: 200" "x" ⟨"x", none, none, some 200, none, none, none⟩ (by decide)

end ExifAnalyzer
